import Mathlib

/-!
Verification development for the `pbtxtjs` protocol-buffer text-format
parser.  The definitions below are a shallow embedding of the current
(built) revision of the parser — the revision shipped as compiled
JavaScript (file `unnamed/part_000`, i.e. `dist/parser.js`) — which is the
revision the active test suite exercises.  Where the older
`src/parser.ts` revision diverges (escape handling, numeric-base
detection, adjacent byte-string concatenation, unknown-field skipping),
comments note the divergence.

JavaScript strings are modelled as sequences of UTF-16 code units; at the
tokenizer level we use Lean `String`/`Char`, identifying one code unit
with one character (exact for inputs made of basic-multilingual-plane
scalar values, which is the domain of every theorem below).  Where the
code manufactures arbitrary 16-bit units (`String.fromCharCode`) we use
`List Nat` of code units instead.
-/

deriving instance DecidableEq for Except

namespace Pbtxt

/-! ## Character classes and digit values (ASCII, as used by the JS regexes) -/

def isOctDigit (c : Char) : Bool := 48 ≤ c.toNat && c.toNat ≤ 55

def isHexDigitJs (c : Char) : Bool :=
  (48 ≤ c.toNat && c.toNat ≤ 57) || (97 ≤ c.toNat && c.toNat ≤ 102) ||
  (65 ≤ c.toNat && c.toNat ≤ 70)

def digitVal (c : Char) : Nat := c.toNat - 48

def hexDigitVal (c : Char) : Nat :=
  if 48 ≤ c.toNat ∧ c.toNat ≤ 57 then c.toNat - 48
  else if 97 ≤ c.toNat ∧ c.toNat ≤ 102 then c.toNat - 97 + 10
  else c.toNat - 65 + 10

/-- Value of a digit list in the given base, most significant first. -/
def digitsVal (base : Nat) (f : Char → Nat) (ds : List Char) : Nat :=
  ds.foldl (fun acc c => acc * base + f c) 0

/-- JS whitespace class `\s` restricted to the characters that can occur
inside one line of input (the input is split on LF before tokenizing). -/
def isJsWs (c : Char) : Bool :=
  c = ' ' || c = '\t' || c = '\x0b' || c = '\x0c' || c = '\r' ||
  c = ' ' || c = '﻿'

/-! ## Models of the JavaScript number-from-string builtins

`parseInt`, `Number(string)`, `BigInt(string)` and `parseFloat` have no
source in the repository; they are modelled here following the
ECMAScript specification, on the fragments of their domain the parser's
theorems exercise (see the individual doc comments for the exact
fragment). -/

/-- ECMAScript `parseInt(s, radix)` for radix 8 or 16: skip leading
whitespace, optional sign, for radix 16 an optional `0x`/`0X` prefix,
then the maximal prefix of digits valid in the radix (trailing garbage
ignored).  `none` models the NaN result (no digits at all). -/
def jsParseInt (radix : Nat) (dig : Char → Bool) (dval : Char → Nat) (s : String) :
    Option Int :=
  let xs := s.data.dropWhile isJsWs
  let (neg, xs) : Bool × List Char :=
    match xs with
    | '-' :: t => (true, t)
    | '+' :: t => (false, t)
    | t => (false, t)
  let xs :=
    if radix = 16 then
      match xs with
      | '0' :: 'x' :: t => t
      | '0' :: 'X' :: t => t
      | t => t
    else xs
  let ds := xs.takeWhile dig
  if ds.isEmpty then none
  else
    let v : Int := (digitsVal radix dval ds : Nat)
    some (if neg then -v else v)

def jsParseInt16 (s : String) : Option Int := jsParseInt 16 isHexDigitJs hexDigitVal s

def jsParseInt8 (s : String) : Option Int := jsParseInt 8 isOctDigit digitVal s

/-- ECMAScript `Number(s)` (string-to-number coercion), modelled on the
integer fragment of the `StringNumericLiteral` grammar: after trimming
whitespace, the empty string is `0`; an optionally signed run of decimal
digits is its decimal value; an (unsigned) `0x`/`0X`, `0o`/`0O` or
`0b`/`0B` prefixed run of digits is its value in that base.  Everything
else — including the NaN case and numeric forms with a fraction,
exponent or `Infinity`, which no theorem below exercises — is `none`. -/
def jsNumberInt (s : String) : Option Int :=
  let xs := s.data.dropWhile isJsWs
  let xs := xs.reverse.dropWhile isJsWs |>.reverse
  if xs = [] then some 0
  else if xs.take 2 = ['0', 'x'] ∨ xs.take 2 = ['0', 'X'] then
    let t := xs.drop 2
    if t ≠ [] ∧ t.all isHexDigitJs then some (digitsVal 16 hexDigitVal t) else none
  else if xs.take 2 = ['0', 'o'] ∨ xs.take 2 = ['0', 'O'] then
    let t := xs.drop 2
    if t ≠ [] ∧ t.all isOctDigit then some (digitsVal 8 digitVal t) else none
  else if xs.take 2 = ['0', 'b'] ∨ xs.take 2 = ['0', 'B'] then
    let t := xs.drop 2
    if t ≠ [] ∧ t.all (fun c => c = '0' || c = '1') then some (digitsVal 2 digitVal t) else none
  else if xs.head? = some '-' then
    let t := xs.drop 1
    if t ≠ [] ∧ t.all Char.isDigit then some (-(digitsVal 10 digitVal t : Nat) : Int) else none
  else if xs.head? = some '+' then
    let t := xs.drop 1
    if t ≠ [] ∧ t.all Char.isDigit then some (digitsVal 10 digitVal t) else none
  else if xs.all Char.isDigit then some (digitsVal 10 digitVal xs) else none

/-- ECMAScript `BigInt(s)`: like the integer fragment of `Number(s)` but
with no fraction/exponent forms in the grammar at all, so this model is
exact: `none` models the thrown `SyntaxError`. -/
def jsBigInt (s : String) : Option Int := jsNumberInt s

/-! ## `Tokenizer.parseInteger` (static method of the built revision)

Base detection: `0x`/`0X` prefix → the constructor parses it as hex;
`-0x`/`-0X` prefix → `parseInt(text, 16)` then the constructor; the
regex `^-?0[0-7]+$` → `parseInt(text, 8)` then the constructor;
otherwise the constructor parses it as signed decimal.  `none` models
the thrown `Couldn't parse integer` error (which also covers the
NaN-result check for the `Number` constructor). -/

/-- JS `String.prototype.startsWith`, on the character-list view (the
built-in `String.startsWith` of Lean is byte-level and is avoided only so
that concrete runs reduce inside the kernel). -/
def strStartsWith (s p : String) : Bool := p.data.isPrefixOf s.data

/-- The regex test `/^-?0[0-7]+$/` (C-style octal form): an optional
sign, a `0`, then one or more octal digits, nothing else. -/
def isOctalForm (s : String) : Bool :=
  let body := if s.data.head? = some '-' then s.data.drop 1 else s.data
  body.head? = some '0' && !(body.drop 1).isEmpty && (body.drop 1).all isOctDigit

/-- `Tokenizer.parseInteger(text, Number)` of the built revision (used by
`consumeInt32` and `consumeUint32`).  The older `src/parser.ts` revision
instead used bare `parseInt(text, 10)` with no base detection. -/
def parseIntegerNum (text : String) : Option Int :=
  if strStartsWith text "0x" || strStartsWith text "0X" then
    jsNumberInt text
  else if strStartsWith text "-0x" || strStartsWith text "-0X" then
    jsParseInt16 text
  else if isOctalForm text then
    jsParseInt8 text
  else
    jsNumberInt text

/-- `Tokenizer.parseInteger(text, BigInt)` of the built revision (used by
`consumeInt64` and `consumeUint64`). -/
def parseIntegerBig (text : String) : Option Int :=
  if strStartsWith text "0x" || strStartsWith text "0X" then
    jsBigInt text
  else if strStartsWith text "-0x" || strStartsWith text "-0X" then
    jsParseInt16 text
  else if isOctalForm text then
    jsParseInt8 text
  else
    jsBigInt text

example : parseIntegerNum "042" = some 34 := by decide
example : parseIntegerNum "0x2A" = some 42 := by decide
example : parseIntegerNum "-0x2A" = some (-42) := by decide
example : parseIntegerNum "42" = some 42 := by decide
example : parseIntegerBig "042" = some 34 := by decide
example : parseIntegerBig "-0x2A" = some (-42) := by decide
example : parseIntegerNum "abc" = none := by decide
example : parseIntegerNum "-1" = some (-1) := by decide

/-! ## Floating-point values

Finite doubles are idealized as exact rationals (the value denoted by the
decimal literal); no claim below depends on IEEE-754 rounding.  The
rationals are carried as normalized numerator/denominator pairs of a
small dedicated type, so that concrete values reduce inside the kernel.
NaN and the two infinities are distinguished constructors, as the
special-value claims require. -/

structure PQ where
  num : Int
  den : Nat
deriving DecidableEq, Repr

/-- Normalizing constructor: the fraction `n / d` in lowest terms
(`d = 0` never arises below: denominators are powers of ten). -/
def PQ.make (n : Int) (d : Nat) : PQ :=
  let g := Nat.gcd n.natAbs d
  if g = 0 then ⟨0, 0⟩ else ⟨n / (g : Int), d / g⟩

def PQ.addQ (a b : PQ) : PQ := PQ.make (a.num * b.den + b.num * a.den) (a.den * b.den)

def PQ.mulQ (a b : PQ) : PQ := PQ.make (a.num * b.num) (a.den * b.den)

def PQ.negQ (a : PQ) : PQ := ⟨-a.num, a.den⟩

def PQ.ofInt (n : Int) : PQ := ⟨n, 1⟩

inductive JsFloat where
  | nan : JsFloat
  | inf : JsFloat
  | negInf : JsFloat
  | finite (q : PQ) : JsFloat
deriving DecidableEq, Repr

/-- Digits after the decimal point, as a rational in `[0, 1)`. -/
def fracVal (ds : List Char) : PQ :=
  PQ.make (digitsVal 10 digitVal ds : Nat) (10 ^ ds.length)

/-- The exponent part of a decimal literal: if the list starts with
`e`/`E`, an optional sign and at least one digit, its signed value;
otherwise `0` (an invalid exponent part is simply not consumed —
`parseFloat` keeps the longest valid literal prefix). -/
def expPartVal (xs : List Char) : Int :=
  match xs with
  | c :: t =>
    if c = 'e' ∨ c = 'E' then
      let neg := t.head? = some '-'
      let u := if t.head? = some '+' ∨ t.head? = some '-' then t.drop 1 else t
      let ds := u.takeWhile Char.isDigit
      if ds.isEmpty then 0
      else if neg then -(digitsVal 10 digitVal ds : Int) else (digitsVal 10 digitVal ds : Nat)
    else 0
  | [] => 0

def ratPow10 (e : Int) : PQ :=
  match e with
  | .ofNat n => ⟨(10 ^ n : Nat), 1⟩
  | .negSucc n => ⟨1, 10 ^ (n + 1)⟩

/-- The unsigned part of ECMAScript `parseFloat`: `Infinity`, or digits
with an optional fraction and exponent.  Returns `JsFloat.nan` when no
prefix of the input is a valid decimal literal. -/
def parseFloatUnsigned (neg : Bool) (xs : List Char) : JsFloat :=
  if "Infinity".data.isPrefixOf xs then (if neg then .negInf else .inf)
  else
    let ip := xs.takeWhile Char.isDigit
    let r1 := xs.dropWhile Char.isDigit
    let fp := if r1.head? = some '.' then (r1.drop 1).takeWhile Char.isDigit else []
    let r2 := if r1.head? = some '.' then (r1.drop 1).dropWhile Char.isDigit else r1
    if ip.isEmpty ∧ fp.isEmpty then .nan
    else
      let mant := PQ.addQ (PQ.ofInt (digitsVal 10 digitVal ip : Nat)) (fracVal fp)
      let v := PQ.mulQ mant (ratPow10 (expPartVal r2))
      .finite (if neg then PQ.negQ v else v)

/-- ECMAScript `parseFloat(s)`: skip leading whitespace, optional sign,
then the longest prefix that is a valid `StrDecimalLiteral`; NaN when
there is none.  The numeric value is idealized as an exact rational. -/
def parseFloatVal (s : String) : JsFloat :=
  let xs := s.data.dropWhile isJsWs
  if xs.head? = some '+' then parseFloatUnsigned false (xs.drop 1)
  else if xs.head? = some '-' then parseFloatUnsigned true (xs.drop 1)
  else parseFloatUnsigned false xs

/-- JS `String.prototype.toLowerCase`, ASCII fragment (the tokens the
parser compares case-insensitively are ASCII identifiers). -/
def jsToLower (s : String) : String :=
  ⟨s.data.map (fun c => if 'A' ≤ c ∧ c ≤ 'Z' then Char.ofNat (c.toNat + 32) else c)⟩

/-- JS `String.prototype.endsWith` for a single character. -/
def strEndsWith (s : String) (c : Char) : Bool :=
  match s.data.getLast? with
  | some d => d = c
  | none => false

/-- JS `s.slice(0, -1)`: drop the final character. -/
def strDropLast (s : String) : String := ⟨s.data.dropLast⟩

/-- The value computed by `Tokenizer.consumeFloat` of the built revision
for a given token text: case-insensitive `inf`/`infinity`,
`-inf`/`-infinity` and `nan` map to the special values; otherwise a
trailing `f` is sliced off and the rest goes through `parseFloat`.  (The
older `src/parser.ts` revision lacks the three special-identifier
branches.)  This function is total: the code path cannot throw. -/
def consumeFloatTok (float_str : String) : JsFloat :=
  let lowerToken := jsToLower float_str
  if lowerToken = "inf" ∨ lowerToken = "infinity" then .inf
  else if lowerToken = "-inf" ∨ lowerToken = "-infinity" then .negInf
  else if lowerToken = "nan" then .nan
  else if strEndsWith float_str 'f' then parseFloatVal (strDropLast float_str)
  else parseFloatVal float_str

example : consumeFloatTok "INF" = .inf := by decide
example : consumeFloatTok "-Infinity" = .negInf := by decide
example : consumeFloatTok "NaN" = .nan := by decide
example : consumeFloatTok "3.5f" = .finite ⟨7, 2⟩ := by decide
example : consumeFloatTok "3.5F" = .finite ⟨7, 2⟩ := by decide
example : consumeFloatTok "2e3" = .finite ⟨2000, 1⟩ := by decide
example : consumeFloatTok "-4.25" = .finite ⟨-17, 4⟩ := by decide
example : consumeFloatTok "hello" = .nan := by decide
example : parseFloatVal "3.5e" = .finite ⟨7, 2⟩ := by decide
example : parseFloatVal ".5" = .finite ⟨1, 2⟩ := by decide
example : parseFloatVal "3." = .finite ⟨3, 1⟩ := by decide
example : parseFloatVal "." = .nan := by decide

/-! ## String unescaping (`cUnescape` of the built revision)

The decoded result is a list of UTF-16 code units (`String.fromCharCode`
can produce lone surrogates and `String.fromCodePoint` produces
surrogate pairs, neither of which fit a Lean `Char`).  `Except` models
the `RangeError` thrown by `String.fromCodePoint`, the only way this
function can throw.

Divergence note: in the older `src/parser.ts` revision the
single-character escape cases do not advance the cursor past the escape
character, so `\n` decodes to the newline followed by a literal `n`;
the built revision fixed those cases but kept the cursor in place in the
`default` case, so an unrecognized escape `\c` still decodes to `c`
twice. -/

/-- JS string of ASCII/BMP scalars, as its list of UTF-16 code units. -/
def strUnits (s : String) : List Nat := s.data.map Char.toNat

/-- Take the longest prefix satisfying `p`, of length at most `n` (the
bounded digit loops of `cUnescape`). -/
def takeWhileN (p : Char → Bool) : Nat → List Char → List Char
  | 0, _ => []
  | _, [] => []
  | n + 1, c :: t => if p c then c :: takeWhileN p n t else []

/-- `parseInt(String(taken), 16)` where `taken` are the characters the
`\u`/`\U` loops collected (reading past the end of the source appends
the text `undefined`, whose leading `u` stops the hex scan, so only the
maximal hex-digit prefix of the collected characters counts); `none`
models NaN. -/
def hexPrefixVal (taken : List Char) : Option Nat :=
  let ds := taken.takeWhile isHexDigitJs
  if ds.isEmpty then none else some (digitsVal 16 hexDigitVal ds)

/-- UTF-16 encoding of a code point `≤ 0x10FFFF` (what
`String.fromCodePoint` appends). -/
def utf16Units (v : Nat) : List Nat :=
  if v < 0x10000 then [v]
  else [0xD800 + (v - 0x10000) / 0x400, 0xDC00 + (v - 0x10000) % 0x400]

/-- Escape characters with a dedicated `case` in `cUnescape`'s switch. -/
def isEscCase (e : Char) : Bool :=
  e = 'a' || e = 'b' || e = 'f' || e = 'n' || e = 'r' || e = 't' || e = 'v' ||
  e = '?' || e = '\\' || e = Char.ofNat 39 || e = '"' ||
  isOctDigit e || e = 'x' || e = 'u' || e = 'U'

/-- One decoded unit for each single-character escape case. -/
def simpleEscVal (e : Char) : Nat :=
  if e = 'a' then 0x07 else if e = 'b' then 0x08 else if e = 'f' then 0x0C
  else if e = 'n' then 0x0A else if e = 'r' then 0x0D else if e = 't' then 0x09
  else if e = 'v' then 0x0B else if e = '?' then 0x3F else if e = '\\' then 0x5C
  else if e = Char.ofNat 39 then 0x27 else 0x22

/-- Worker for `cUnescapeU`; the fuel is only a structural-recursion
bound (each step consumes at least one source character, so
`source.length` fuel always suffices). -/
def cUnescapeAux : Nat → List Char → Except String (List Nat)
  | 0, _ => .ok []
  | _ + 1, [] => .ok []
  | _ + 1, [c] =>
    if c = '\\' then
      -- the cursor moves past the end; `switch (undefined)` hits
      -- `default`, which appends `undefined` to the result string
      .ok (strUnits "undefined")
    else (c.toNat :: ·) <$> .ok []
  | fuel + 1, c :: e :: rest' =>
    if c = '\\' then
      if e = 'x' then
        let hx := takeWhileN isHexDigitJs 2 rest'
        -- zero digits: `parseInt("", 16)` is NaN and
        -- `String.fromCharCode(NaN)` is the NUL unit
        let v := if hx.isEmpty then 0 else digitsVal 16 hexDigitVal hx
        (v % 0x10000 :: ·) <$> cUnescapeAux fuel (rest'.drop hx.length)
      else if e = 'u' then
        let taken := rest'.take 4
        let v := (hexPrefixVal taken).getD 0
        (v % 0x10000 :: ·) <$> cUnescapeAux fuel (rest'.drop 4)
      else if e = 'U' then
        let taken := rest'.take 8
        match hexPrefixVal taken with
        | none => .error "Invalid code point"
        | some v =>
          if v ≤ 0x10FFFF then
            (utf16Units v ++ ·) <$> cUnescapeAux fuel (rest'.drop 8)
          else .error "Invalid code point"
      else if isOctDigit e then
        let ds := takeWhileN isOctDigit 3 (e :: rest')
        let v := digitsVal 8 digitVal ds
        (v % 0x10000 :: ·) <$> cUnescapeAux fuel ((e :: rest').drop ds.length)
      else if isEscCase e then
        (simpleEscVal e :: ·) <$> cUnescapeAux fuel rest'
      else
        -- `default`: the escaped character is appended but the cursor
        -- is not advanced, so the character is then re-read literally
        (e.toNat :: e.toNat :: ·) <$> cUnescapeAux fuel rest'
    else
      (c.toNat :: ·) <$> cUnescapeAux fuel (e :: rest')

/-- `cUnescape(source)` of the built revision, on code units. -/
def cUnescapeU (source : List Char) : Except String (List Nat) :=
  cUnescapeAux (source.length + 1) source

example : cUnescapeU "\\1234".data = .ok [0x53, 0x34] := by decide
example : cUnescapeU "\\x213".data = .ok [0x21, 0x33] := by decide
example : cUnescapeU "\\xFHello".data = .ok (0x0F :: strUnits "Hello") := by decide
example : cUnescapeU "\\0".data = .ok [0] := by decide
example : cUnescapeU "\\08".data = .ok [0, 0x38] := by decide
example : cUnescapeU "\\n".data = .ok [0x0A] := by decide
example : cUnescapeU "\\q".data = .ok [0x71, 0x71] := by decide
example : cUnescapeU "\\u0041B".data = .ok [0x41, 0x42] := by decide
example : cUnescapeU "\\U0001F600".data = .ok [0xD83D, 0xDE00] := by decide
example : cUnescapeU "ab".data = .ok [0x61, 0x62] := by decide

/-! ## The Tokenizer

State record and `_popLine` / `_skipWhitespace` / `nextToken`, ported
field by field.  The two internal loops are expressed with explicit
structural bounds (`_popLine` recurses on the list of remaining lines;
`_skipWhitespace` consumes at least one character per iteration, so the
total remaining input size bounds it). -/

structure Tok where
  lines : List String
  line : Int
  column : Nat
  token : String
  current_line : String
  more_lines : Bool
  previous_line : Int
  previous_column : Nat
deriving DecidableEq, Repr

/-- Loop body of `_popLine`: shift lines until a nonempty one appears. -/
def popLineAux : List String → Int → Nat → (String × List String × Int × Nat × Bool)
  | [], line, col => ("", [], line, col, false)
  | l :: ls, line, _ =>
    if l.data.length = 0 then popLineAux ls (line + 1) 0
    else (l, ls, line + 1, 0, true)

/-- `_popLine`: a no-op while the cursor is inside the current line. -/
def popLine (t : Tok) : Tok :=
  if t.current_line.data.length = 0 ∨ t.current_line.data.length ≤ t.column then
    let (cl, ls, ln, col, more) := popLineAux t.lines t.line t.column
    { t with current_line := cl, lines := ls, line := ln, column := col, more_lines := more }
  else t

/-- Length of the maximal prefix matching `(?:\s|#.*)+` (a `#` comment
runs to the end of the line). -/
def wsLen : List Char → Nat
  | [] => 0
  | c :: t => if c = '#' then t.length + 1 else if isJsWs c then wsLen t + 1 else 0

/-- Total remaining input size, a bound for the `_skipWhitespace` loop. -/
def tokMeasure (t : Tok) : Nat :=
  t.lines.foldr (fun l acc => l.data.length + 1 + acc) 0 + t.current_line.data.length + 1

/-- `_skipWhitespace`: pop to a nonempty line, consume the maximal
whitespace/comment prefix, repeat until a real character is under the
cursor or input ends. -/
def skipWsAux : Nat → Tok → Tok
  | 0, t => t
  | fuel + 1, t =>
    let t := popLine t
    if !t.more_lines then t
    else if wsLen (t.current_line.data.drop t.column) = 0 then t
    else skipWsAux fuel { t with column := t.column + wsLen (t.current_line.data.drop t.column) }

def isQuoteChar (c : Char) : Bool := c = '"' || c = Char.ofNat 39

def isIdStart (c : Char) : Bool := c.isAlpha || c = '_'

def isIdCont (c : Char) : Bool := c.isAlphanum || c = '_' || c = '+' || c = '-'

def isNumCont (c : Char) : Bool := c.isAlphanum || c = '_' || c = '.' || c = '+' || c = '-'

/-- Body of a quoted literal: the greedy `([^"\n\\]|\\.)*("|\\?$)` tail
of the `_TOKEN` regex (with `"` replaced by the opening quote). -/
def strBody (q : Char) : List Char → List Char
  | [] => []
  | c :: t =>
    if c = q then [c]
    else if c = '\\' then
      match t with
      | [] => [c]
      | d :: u => c :: d :: strBody q u
    else c :: strBody q t

/-- The `_TOKEN` regex, as a maximal-munch scanner anchored at the start
of the remaining line: identifier, number, quoted literal (either
style), and otherwise no match (the caller falls back to a single
character, which this function returns directly). -/
def tokenMatch : List Char → List Char
  | [] => []
  | c :: t =>
    if isIdStart c then c :: t.takeWhile isIdCont
    else if c.isDigit || c = '+' || c = '-' then c :: t.takeWhile isNumCont
    else if c = '.' then
      match t with
      | d :: u => if d.isDigit then c :: d :: u.takeWhile isNumCont else [c]
      | [] => [c]
    else if isQuoteChar c then c :: strBody c t
    else [c]

/-- The token-scanning tail of `nextToken`: empty token at end of
input or end of line, otherwise the `_TOKEN` match (or the single
fallback character, which `tokenMatch` already returns). -/
def scanToken (t : Tok) : Tok :=
  if !t.more_lines then { t with token := "" }
  else if (t.current_line.data.drop t.column).isEmpty then { t with token := "" }
  else { t with token := ⟨tokenMatch (t.current_line.data.drop t.column)⟩ }

/-- `nextToken`: record the previous token's start, move past the
current token, skip whitespace, then scan one token. -/
def nextToken (t : Tok) : Tok :=
  let t := { t with
    previous_line := t.line, previous_column := t.column,
    column := t.column + t.token.data.length }
  scanToken (skipWsAux (tokMeasure t) t)

/-- The `Tokenizer(lines)` constructor: initialize fields, `_popLine()`,
`nextToken()`. -/
def mkTokenizer (lines : List String) : Tok :=
  nextToken (popLine
    { lines := lines, line := -1, column := 0, token := "",
      current_line := "", more_lines := true,
      previous_line := 0, previous_column := 0 })

/-- Splitting the input text on LF (`text.split('\n')`). -/
def splitLF (xs : List Char) : List (List Char) :=
  match xs with
  | [] => [[]]
  | c :: t =>
    match splitLF t with
    | [] => [[]]
    | h :: r => if c = '\n' then [] :: h :: r else (c :: h) :: r

def jsSplitNL (s : String) : List String := (splitLF s.data).map (⟨·⟩)

example : (mkTokenizer (jsSplitNL "string_field: \"hi\"")).token = "string_field" := by decide
example : (nextToken (mkTokenizer (jsSplitNL "string_field: \"hi\""))).token = ":" := by decide
example : (nextToken (nextToken (mkTokenizer (jsSplitNL "string_field: \"hi\"")))).token = "\"hi\"" := by decide
example : (nextToken (nextToken (nextToken (mkTokenizer (jsSplitNL "string_field: \"hi\""))))).token = "" := by decide
example : (mkTokenizer (jsSplitNL "  # comment\n  -3.5f x")).token = "-3.5f" := by decide
example : (mkTokenizer (jsSplitNL "[ext]")).token = "[" := by decide
example : (mkTokenizer (jsSplitNL "'a\\'b' q")).token = "'a\\'b'" := by decide

/-! ## Parse errors and the parsing monad

A JS exception unwinds the stack but the tokenizer object keeps every
mutation made before the throw, and a `catch` continues from that
mutated state.  `PM` therefore always returns the final tokenizer state
alongside either a value or the thrown `ParseError`. -/

structure PErr where
  msg : String
  eline : Option Int
  ecol : Option Nat
deriving DecidableEq, Repr

def PM (α : Type) : Type := Tok → Tok × Except PErr α

/-- Sequencing in `PM`: thread the tokenizer state, short-circuit on a
thrown `ParseError`. -/
def pmBind {α β : Type} (x : PM α) (f : α → PM β) : PM β := fun t =>
  match x t with
  | (t', .ok a) => f a t'
  | (t', .error e) => (t', .error e)

instance : Monad PM where
  pure a := fun t => (t, .ok a)
  bind := pmBind

def throwPM {α : Type} (e : PErr) : PM α := fun t => (t, .error e)

def getTok : PM Tok := fun t => (t, .ok t)

/-- JS `try`/`catch`: the handler runs from the state at the throw. -/
def catchPM {α : Type} (x : PM α) (h : PErr → PM α) : PM α := fun t =>
  match x t with
  | (t', .error e) => h e t'
  | r => r

/-- `tokenizer.parseError(msg)`: error at the current 1-based position. -/
def parseErrorAt (t : Tok) (msg : String) : PErr :=
  ⟨msg, some (t.line + 1), some (t.column + 1)⟩

/-- `tokenizer.parseErrorPreviousToken(msg)`. -/
def parseErrorPrevAt (t : Tok) (msg : String) : PErr :=
  ⟨msg, some (t.previous_line + 1), some (t.previous_column + 1)⟩

def atEndPM : PM Bool := fun t => (t, .ok (t.token = ""))

def lookingAt (tok : String) : PM Bool := fun t => (t, .ok (t.token = tok))

def tryConsume (tok : String) : PM Bool := fun t =>
  if t.token = tok then (nextToken t, .ok true) else (t, .ok false)

def consume (tok : String) : PM Unit := fun t =>
  if t.token = tok then (nextToken t, .ok ())
  else (t, .error (parseErrorAt t ("Expected \"" ++ tok ++ "\".")))

/-- The `_IDENTIFIER` regex `/[a-zA-Z_][0-9a-zA-Z_]*/` used through
`.test(...)` without anchors, so it accepts any token *containing* a
letter or underscore (a single such character is already a match). -/
def idRegexTest (s : String) : Bool := s.data.any (fun c => c.isAlpha || c = '_')

def consumeIdentifier : PM String := fun t =>
  if idRegexTest t.token then (nextToken t, .ok t.token)
  else (t, .error (parseErrorAt t "Expected identifier."))

/-- The anchored test `/^\w+$/`. -/
def isWordTok (s : String) : Bool :=
  !s.data.isEmpty && s.data.all (fun c => c.isAlphanum || c = '_')

def consumeIdentifierOrNumber : PM String := fun t =>
  if isWordTok t.token then (nextToken t, .ok t.token)
  else (t, .error (parseErrorAt t ("Expected identifier or number, got " ++ t.token ++ ".")))

def consumeInt32 : PM Int := fun t =>
  let s := t.token
  let t' := nextToken t
  match parseIntegerNum s with
  | some v => (t', .ok v)
  | none => (t', .error (parseErrorPrevAt t' ("Couldn't parse integer: " ++ s)))

def consumeUint32 : PM Int := fun t =>
  let s := t.token
  let t' := nextToken t
  match parseIntegerNum s with
  | some v => (t', .ok v)
  | none => (t', .error (parseErrorPrevAt t' ("Couldn't parse integer: " ++ s)))

def consumeInt64 : PM Int := fun t =>
  let s := t.token
  let t' := nextToken t
  match parseIntegerBig s with
  | some v => (t', .ok v)
  | none => (t', .error (parseErrorPrevAt t' ("Couldn't parse integer: " ++ s)))

def consumeUint64 : PM Int := fun t =>
  let s := t.token
  let t' := nextToken t
  match parseIntegerBig s with
  | some v => (t', .ok v)
  | none => (t', .error (parseErrorPrevAt t' ("Couldn't parse integer: " ++ s)))

/-- `consumeFloat` never throws: it unconditionally advances and maps
the token text through `consumeFloatTok`. -/
def consumeFloat : PM JsFloat := fun t => (nextToken t, .ok (consumeFloatTok t.token))

def consumeBool : PM Bool := fun t =>
  let s := t.token
  let t' := nextToken t
  if s = "true" ∨ s = "True" ∨ s = "t" ∨ s = "1" then (t', .ok true)
  else if s = "false" ∨ s = "False" ∨ s = "f" ∨ s = "0" then (t', .ok false)
  else (t', .error (parseErrorPrevAt t'
    ("Expected \"true\", \"True\", \"t\", 1, or \"false\", \"False\", \"f\", 0; found \"" ++ s ++ "\"")))

/-- `_consumeByteString`: one quoted literal; quote checks, then
`cUnescape` on the payload (a `cUnescape` throw is re-raised as a
`ParseError` at the current position, before the tokenizer advances). -/
def consumeOneByteString : PM (List Nat) := fun t =>
  let text := t.token
  match text.data with
  | [] => (t, .error (parseErrorAt t ("Expected string but found: " ++ text)))
  | c :: restChars =>
    if !isQuoteChar c then
      (t, .error (parseErrorAt t ("Expected string but found: " ++ text)))
    else if restChars.length = 0 ∨ text.data.getLast? ≠ some c then
      (t, .error (parseErrorAt t ("String missing ending quote: " ++ text)))
    else
      match cUnescapeU restChars.dropLast with
      | .ok r => (nextToken t, .ok r)
      | .error e => (t, .error (parseErrorAt t e))

/-- The concatenation loop shared by `consumeString` and
`consumeByteString`: keep appending adjacent quoted literals while the
current token starts with a quote. -/
def consumeStringAux : Nat → List Nat → PM (List Nat)
  | 0, acc => pure acc
  | fuel + 1, acc => fun t =>
    match t.token.data with
    | c :: _ =>
      if isQuoteChar c then
        (do
          let r ← consumeOneByteString
          consumeStringAux fuel (acc ++ r)) t
      else (t, .ok acc)
    | [] => (t, .ok acc)

/-- `consumeString` of the built revision: adjacent quoted literals
concatenate at the character (code-unit) level. -/
def consumeString : PM (List Nat) := do
  let r ← consumeOneByteString
  let t ← getTok
  consumeStringAux (tokMeasure t) r

/-- `consumeByteString` of the built revision: same concatenation loop,
then each code unit is truncated to a byte by the `Uint8Array` store.
(The older `src/parser.ts` revision has no concatenation loop here.) -/
def consumeByteString : PM (List Nat) := do
  let us ← consumeString
  pure (us.map (· % 256))

/-- `tryConsumeAnyScalar`: a quoted token is consumed as a string (a
mid-way throw is caught, keeping the state reached); an
identifier-shaped or number-shaped token (full anchored match of the
corresponding `_TOKEN` alternatives) is consumed; otherwise `false`. -/
def fullIdTok (s : String) : Bool :=
  match s.data with
  | c :: t => isIdStart c && t.all isIdCont
  | [] => false

def fullNumTok (s : String) : Bool :=
  match s.data with
  | c :: t =>
    if c.isDigit || c = '+' || c = '-' then t.all isNumCont
    else if c = '.' then
      match t with
      | d :: u => d.isDigit && u.all isNumCont
      | [] => false
    else false
  | [] => false

def tryConsumeAnyScalar : PM Bool := fun t =>
  if t.token = "" then (t, .ok false)
  else
    match t.token.data with
    | [] => (t, .ok false)
    | c :: _ =>
      if isQuoteChar c then
        match consumeString t with
        | (t', .ok _) => (t', .ok true)
        | (t', .error _) => (t', .ok false)
      else if fullIdTok t.token || fullNumTok t.token then (nextToken t, .ok true)
      else (t, .ok false)

example : (consumeString (mkTokenizer (jsSplitNL "\"a\" \"b\""))).2 = .ok (strUnits "ab") := by decide
example : (consumeString (mkTokenizer (jsSplitNL "\"ab\""))).2 = .ok (strUnits "ab") := by decide
example : (consumeInt32 (mkTokenizer (jsSplitNL "042"))).2 = .ok 34 := by decide
example : (consumeBool (mkTokenizer (jsSplitNL "True"))).2 = .ok true := by decide

/-! ## Schema view

The parser consumes protobufjs descriptors read-only; this models
exactly the surface it touches: message descriptors with fields (looked
up by camelCase property name and by numeric tag), enum descriptors
with their value tables, and per-field metadata (`name`, `id`, `type`,
`repeated`, `map`, `keyType`, `resolvedType`). -/

mutual

inductive TypeDesc where
  | enumD : EnumDescr → TypeDesc
  | msgD : MsgDescr → TypeDesc

inductive EnumDescr where
  | mk : (name : String) → (values : List (String × Int)) → EnumDescr

inductive MsgDescr where
  | mk : (name : String) → (fullName : String) → (fields : List FieldD) → MsgDescr

inductive FieldD where
  | mk : (name : String) → (id : Nat) → (typeStr : String) → (repeated : Bool) →
      (isMap : Bool) → (keyType : String) → (resolved : Option TypeDesc) → FieldD

end

def EnumDescr.ename : EnumDescr → String
  | .mk n _ => n

def EnumDescr.evalues : EnumDescr → List (String × Int)
  | .mk _ v => v

def MsgDescr.mname : MsgDescr → String
  | .mk n _ _ => n

def MsgDescr.mfullName : MsgDescr → String
  | .mk _ f _ => f

def MsgDescr.mfields : MsgDescr → List FieldD
  | .mk _ _ fs => fs

def FieldD.fname : FieldD → String
  | .mk n _ _ _ _ _ _ => n

def FieldD.fid : FieldD → Nat
  | .mk _ i _ _ _ _ _ => i

def FieldD.ftype : FieldD → String
  | .mk _ _ ty _ _ _ _ => ty

def FieldD.frepeated : FieldD → Bool
  | .mk _ _ _ r _ _ _ => r

def FieldD.fisMap : FieldD → Bool
  | .mk _ _ _ _ m _ _ => m

def FieldD.fkeyType : FieldD → String
  | .mk _ _ _ _ _ k _ => k

def FieldD.fresolved : FieldD → Option TypeDesc
  | .mk _ _ _ _ _ _ r => r

/-- `resolvedType.name` (short name) for the capitalized-group fallback. -/
def TypeDesc.shortName : TypeDesc → String
  | .enumD e => e.ename
  | .msgD d => d.mname

/-- `messageDescriptor.fields[key]`. -/
def findFieldByName (d : MsgDescr) (key : String) : Option FieldD :=
  d.mfields.find? (fun f => f.fname = key)

/-- `messageDescriptor.fieldsById[number]`. -/
def findFieldById (d : MsgDescr) (n : Nat) : Option FieldD :=
  d.mfields.find? (fun f => f.fid = n)

/-- An entry the descriptor pool can return for an extension name:
either a field (with its parent message descriptor) or some other
declaration (which fails the `'id' in field` duck-type check). -/
inductive PoolHit where
  | hitField : FieldD → MsgDescr → PoolHit
  | hitOther : PoolHit

/-- Parser options plus the two registries the parser reads:
`descriptorPool.lookup` for extensions, and `root.lookupType` for
map-value types. -/
structure PEnv where
  allowUnknownExtension : Bool
  allowFieldNumber : Bool
  allowUnknownField : Bool
  pool : List (String × PoolHit)
  root : List (String × MsgDescr)

def PEnv.default : PEnv := ⟨false, false, false, [], []⟩

def poolLookup (env : PEnv) (name : String) : Option PoolHit :=
  (env.pool.find? (fun e => e.1 = name)).map (·.2)

/-- `root.lookupType(name)`: `none` models the throw (unknown type or a
scalar type name). -/
def lookupType (env : PEnv) (name : String) : Option MsgDescr :=
  (env.root.find? (fun e => e.1 = name)).map (·.2)

/-! ## Target message values

A merged message is a JS object: an insertion-ordered association list
of property name to value.  Setting an existing key replaces the value
in place; setting a fresh key appends.  Repeated fields are arrays, map
fields are plain objects keyed by the JS property-key coercion of the
parsed key. -/

inductive PValue where
  | vUndef
  | vInt (n : Int)
  | vBig (n : Int)
  | vFloat (f : JsFloat)
  | vBool (b : Bool)
  | vStr (units : List Nat)
  | vBytes (bs : List Nat)
  | vMsg (fields : List (String × PValue))
  | vArr (xs : List PValue)
  | vMap (entries : List (String × PValue))

abbrev PMessage := List (String × PValue)

def objGet (o : PMessage) (k : String) : Option PValue :=
  (o.find? (fun e => e.1 = k)).map (·.2)

/-- JS property store `o[k] = v`: in-place update of an existing key,
append otherwise. -/
def objSet (o : PMessage) (k : String) (v : PValue) : PMessage :=
  match o with
  | [] => [(k, v)]
  | (k', v') :: t => if k' = k then (k, v) :: t else (k', v') :: objSet t k v

/-- String from BMP code units (property keys and camelCase names stay
in the scalar range). -/
def unitsToStr (us : List Nat) : String := ⟨us.map Char.ofNat⟩

/-- JS property-key coercion `String(key)` of a parsed map key.  Proto
map keys are integral or bool or string, so only those cases can occur;
the remaining constructors get placeholder renderings. -/
def propKey : Option PValue → String
  | none => "undefined"
  | some .vUndef => "undefined"
  | some (.vStr us) => unitsToStr us
  | some (.vInt n) => toString n
  | some (.vBig n) => toString n
  | some (.vBool b) => if b then "true" else "false"
  | some (.vFloat _) => "<float-key>"
  | some (.vBytes _) => "<bytes-key>"
  | some (.vMsg _) => "[object Object]"
  | some (.vArr _) => "<array-key>"
  | some (.vMap _) => "[object Object]"

/-- `toCamelCase`: the global replace of `/_([a-z])/g` by the uppercased
letter. -/
def camelAux : List Char → List Char
  | [] => []
  | '_' :: c :: t =>
    if 'a' ≤ c ∧ c ≤ 'z' then Char.ofNat (c.toNat - 32) :: camelAux t
    else '_' :: camelAux (c :: t)
  | c :: t => c :: camelAux t

def toCamelCase (s : String) : String := ⟨camelAux s.data⟩

example : toCamelCase "string_field" = "stringField" := by decide
example : toCamelCase "a__bc_d" = "a_BcD" := by decide

/-- The full-match numeric test of the enum paths:
`/^-?(?:0[xX][0-9a-fA-F]+|0[0-7]+|\d+)$/`. -/
def enumNumBody (xs : List Char) : Bool :=
  (match xs with
   | '0' :: 'x' :: t => !t.isEmpty && t.all isHexDigitJs
   | '0' :: 'X' :: t => !t.isEmpty && t.all isHexDigitJs
   | _ => false) ||
  (!xs.isEmpty && xs.all Char.isDigit)

def isEnumNumTok (s : String) : Bool :=
  match s.data with
  | '-' :: t => enumNumBody t
  | t => enumNumBody t

/-- The anchored test `/^\d+$/` of the field-number path. -/
def isAllDigits (s : String) : Bool := !s.data.isEmpty && s.data.all Char.isDigit

/-- `parseEnum(field, value)`: numeric-looking tokens parse through
`parseInteger` (unknown numbers pass through, open-enum semantics);
otherwise the symbolic name must be in the enum's value table.  The
`ParseError` thrown for an unknown name carries no position. -/
def parseEnum (e : EnumDescr) (value : String) : Except PErr Int :=
  let symbolic : Except PErr Int :=
    match e.evalues.find? (fun ev => ev.1 = value) with
    | some ev => .ok ev.2
    | none => .error ⟨"Enum type \"" ++ e.ename ++ "\" has no value named " ++ value ++ ".", none, none⟩
  if isEnumNumTok value then
    match parseIntegerNum value with
    | some num => .ok num
    | none => symbolic
  else symbolic

/-- `parseScalar(tokenizer, type)`: dispatch on the wire type. -/
def parseScalar (ty : String) : PM PValue :=
  if ty = "double" ∨ ty = "float" then (PValue.vFloat <$> consumeFloat)
  else if ty = "int32" ∨ ty = "sint32" ∨ ty = "sfixed32" then (PValue.vInt <$> consumeInt32)
  else if ty = "uint32" ∨ ty = "fixed32" then (PValue.vInt <$> consumeUint32)
  else if ty = "int64" ∨ ty = "sint64" ∨ ty = "sfixed64" then (PValue.vBig <$> consumeInt64)
  else if ty = "uint64" ∨ ty = "fixed64" then (PValue.vBig <$> consumeUint64)
  else if ty = "bool" then (PValue.vBool <$> consumeBool)
  else if ty = "string" then (PValue.vStr <$> consumeString)
  else if ty = "bytes" then (PValue.vBytes <$> consumeByteString)
  else fun t => (t, .error (parseErrorAt t ("Unknown scalar type: " ++ ty)))

/-- Read the current token and advance (the inlined
`enumValueStr = tokenizer.token; tokenizer.nextToken()` of the enum
fast path). -/
def readTokenAdv : PM String := fun t => (nextToken t, .ok t.token)

/-- `mergeScalarField`: parse one enum or scalar value and deposit it
(append for repeated fields — re-creating the array if the stored value
is not one — assign otherwise). -/
def mergeScalarField (field : FieldD) (msg : PMessage) : PM PMessage := do
  let v ←
    match field.fresolved with
    | some (.enumD e) => do
      let enumValueStr ←
        (fun t =>
          if isEnumNumTok t.token then readTokenAdv t
          else consumeIdentifierOrNumber t : PM String)
      match parseEnum e enumValueStr with
      | .ok n => pure (PValue.vInt n)
      | .error er => throwPM er
    | _ => parseScalar field.ftype
  if field.frepeated then
    let arr :=
      match objGet msg field.fname with
      | some (.vArr xs) => xs
      | _ => []
    pure (objSet msg field.fname (.vArr (arr ++ [v])))
  else
    pure (objSet msg field.fname v)

/-! ## The Parser (built revision)

The mutually recursive merge functions are bounded by an explicit fuel
argument (each loop iteration and each recursive entry consumes fuel;
since every such step also consumes input, an input-sized fuel always
suffices — `parseText` supplies it).  JS's single higher-order
`parseList(parseItem)` appears below once generically
(`parseListPM`, used with the non-recursive `mergeScalarField`) and
specialized at the two recursive call sites (`mapEntryListLoop`,
`msgListLoop`).

One deliberate value-semantics difference: JS inserts a freshly created
sub-message into the target *before* merging its body, so partial
writes are visible if parsing then throws; here the merged sub-message
is attached afterwards.  Error results discard the merged message, so
no theorem below can observe the difference. -/

/-- `tokenizer.tryConsume('<') ? '>' : (tokenizer.consume('{'), '}')`. -/
def delimOpen : PM String := do
  let b ← tryConsume "<"
  if b then pure ">"
  else do
    consume "\x7b"
    pure "\x7d"

/-- `if (!Array.isArray(message[field.name])) message[field.name] = []`. -/
def ensureArr (msg : PMessage) (f : FieldD) : PMessage :=
  match objGet msg f.fname with
  | some (.vArr _) => msg
  | _ => objSet msg f.fname (.vArr [])

/-- Non-empty tail of `parseList`: item, then `]` or `,`. -/
def parseListAux : Nat → (PMessage → PM PMessage) → PMessage → PM PMessage
  | 0, _, m => pure m
  | fuel + 1, item, m => do
    let m ← item m
    let fin ← tryConsume "]"
    if fin then pure m
    else do
      consume ","
      parseListAux fuel item m

/-- `parseList` (after the opening `[` was consumed): an empty list
parses no items (the array was already initialized by the caller). -/
def parseListPM (fuel : Nat) (item : PMessage → PM PMessage) (m : PMessage) : PM PMessage := do
  let fin ← tryConsume "]"
  if fin then pure m else parseListAux fuel item m

/-- The repeated-scalar / repeated-enum dispatch shared verbatim by the
scalar and enum branches of `mergeField`: on `name: [...]` initialize
the array and parse a list of scalars, otherwise one scalar. -/
def scalarOrList (fuel : Nat) (f : FieldD) (msg : PMessage) : PM PMessage := do
  if f.frepeated then
    let b ← tryConsume "["
    if b then
      let msg := ensureArr msg f
      parseListPM fuel (mergeScalarField f) msg
    else mergeScalarField f msg
  else mergeScalarField f msg

/-- The `while (tryConsume('.')) name += '.' + consumeIdentifier()`
loop of the extension-name form. -/
def extNameLoop : Nat → String → PM String
  | 0, name => pure name
  | fuel + 1, name => do
    let b ← tryConsume "."
    if b then do
      let n ← consumeIdentifier
      extNameLoop fuel (name ++ "." ++ n)
    else pure name

/-- Extension-name skipping inside `skipField`. -/
def extSkipLoop : Nat → PM Unit
  | 0 => pure ()
  | fuel + 1 => do
    let b ← tryConsume "."
    if b then do
      let _ ← consumeIdentifier
      extSkipLoop fuel
    else pure ()

/-- `skipFieldValue`: one scalar-looking token, or `Invalid field value`. -/
def skipFieldValue : PM Unit := do
  let ok ← tryConsumeAnyScalar
  if ok then pure ()
  else fun t => (t, .error (parseErrorAt t ("Invalid field value: " ++ t.token)))

mutual

/-- `mergeField`: resolve the field name (extension or plain form, with
field-number and capitalized-group fallbacks), then dispatch on the
field's shape; unresolved fields are skipped under
`allowUnknownField`. -/
def mergeField : Nat → PEnv → MsgDescr → PMessage → PM PMessage
  | 0, _, _, msg => pure msg
  | fuel + 1, env, desc, msg => do
    let ext ← tryConsume "["
    if ext then do
      let n0 ← consumeIdentifier
      let name ← extNameLoop fuel n0
      consume "]"
      match poolLookup env name with
      | some (.hitField f parent) =>
        -- protobufjs compares descriptor identity; modelled as equality
        -- of fully-qualified names (a pool has one entry per FQN)
        if parent.mfullName ≠ desc.mfullName then
          fun t => (t, .error (parseErrorPrevAt t
            ("Extension \"" ++ name ++ "\" does not extend message type \"" ++
              desc.mfullName ++ "\".")))
        else mergeFoundField fuel env desc msg f
      | _ =>
        if !env.allowUnknownExtension then
          fun t => (t, .error (parseErrorPrevAt t ("Extension \"" ++ name ++ "\" not found.")))
        else mergeNoField fuel env desc msg name
    else do
      let name ← consumeIdentifierOrNumber
      let fieldOpt : Option FieldD :=
        if env.allowFieldNumber && isAllDigits name then
          findFieldById desc (digitsVal 10 digitVal name.data)
        else
          match findFieldByName desc (toCamelCase name) with
          | some f => some f
          | none =>
            -- capitalized group-style names: look up the lowercased
            -- name and accept it if its resolved sub-type's short name
            -- is the original token
            match findFieldByName desc (jsToLower name) with
            | some fl =>
              match fl.fresolved with
              | some rt => if rt.shortName = name then some fl else none
              | none => none
            | none => none
      match fieldOpt with
      | some f => mergeFoundField fuel env desc msg f
      | none => mergeNoField fuel env desc msg name

termination_by structural fuel => fuel

/-- The `if (!field)` tail of `mergeField`: skip under
`allowUnknownField`, raise otherwise (at the previous token). -/
def mergeNoField : Nat → PEnv → MsgDescr → PMessage → String → PM PMessage
  | 0, _, _, msg, _ => pure msg
  | fuel + 1, env, desc, msg, name =>
    if env.allowUnknownField then do
      skipFieldContents fuel env
      pure msg
    else
      fun t => (t, .error (parseErrorPrevAt t
        ("Message type \"" ++ desc.mfullName ++ "\" has no field named \"" ++ name ++ "\".")))

/-- The resolved-field dispatch of `mergeField` (`field.resolve()` is a
no-op here: descriptors carry their resolved sub-type), followed by the
optional `,` separator. -/
def mergeFoundField : Nat → PEnv → MsgDescr → PMessage → FieldD → PM PMessage
  | 0, _, _, msg, _ => pure msg
  | fuel + 1, env, _, msg, f => do
    let msg ←
      if f.fisMap then do
        let _ ← tryConsume ":"
        let b ← tryConsume "["
        if b then do
          let fin ← tryConsume "]"
          if fin then pure msg else mapEntryListLoop fuel env f msg
        else mergeMapFieldEntry fuel env f msg
      else
        match f.fresolved with
        | some (.enumD _) => do
          consume ":"
          scalarOrList fuel f msg
        | some (.msgD _) => do
          let _ ← tryConsume ":"
          if f.frepeated then do
            let b ← tryConsume "["
            if b then do
              let msg := ensureArr msg f
              let fin ← tryConsume "]"
              if fin then pure msg else msgListLoop fuel env f msg
            else mergeMessageField fuel env f msg
          else mergeMessageField fuel env f msg
        | none => do
          consume ":"
          scalarOrList fuel f msg
    let _ ← tryConsume ","
    pure msg

termination_by structural fuel => fuel

/-- `parseList(... => mergeMapFieldEntry ...)`, specialized. -/
def mapEntryListLoop : Nat → PEnv → FieldD → PMessage → PM PMessage
  | 0, _, _, msg => pure msg
  | fuel + 1, env, f, msg => do
    let msg ← mergeMapFieldEntry fuel env f msg
    let fin ← tryConsume "]"
    if fin then pure msg
    else do
      consume ","
      mapEntryListLoop fuel env f msg

termination_by structural fuel => fuel

/-- `parseList(... => mergeMessageField ...)`, specialized. -/
def msgListLoop : Nat → PEnv → FieldD → PMessage → PM PMessage
  | 0, _, _, msg => pure msg
  | fuel + 1, env, f, msg => do
    let msg ← mergeMessageField fuel env f msg
    let fin ← tryConsume "]"
    if fin then pure msg
    else do
      consume ","
      msgListLoop fuel env f msg

termination_by structural fuel => fuel

/-- `mergeMessageField`: `{…}`/`<…>` body merged into a fresh
sub-message for repeated fields, or into the existing sub-message (a
stored non-message value behaves as absent) for singular ones. -/
def mergeMessageField : Nat → PEnv → FieldD → PMessage → PM PMessage
  | 0, _, _, msg => pure msg
  | fuel + 1, env, f, msg => do
    let endTok ← delimOpen
    match f.fresolved with
    | some (.msgD subDesc) =>
      if f.frepeated then do
        let sub ← msgBodyLoop fuel env subDesc endTok []
        let arr :=
          match objGet msg f.fname with
          | some (.vArr xs) => xs
          | _ => []
        pure (objSet msg f.fname (.vArr (arr ++ [.vMsg sub])))
      else do
        let init :=
          match objGet msg f.fname with
          | some (.vMsg m) => m
          | _ => []
        let sub ← msgBodyLoop fuel env subDesc endTok init
        pure (objSet msg f.fname (.vMsg sub))
    | _ =>
      -- `(field.resolvedType as Type).create()` on a non-message would
      -- crash in JS; modelled as an unlocated error
      throwPM ⟨"TypeError: resolvedType is not a message type", none, none⟩

termination_by structural fuel => fuel

/-- `while (!tryConsume(endToken)) { if atEnd throw; mergeField }`. -/
def msgBodyLoop : Nat → PEnv → MsgDescr → String → PMessage → PM PMessage
  | 0, _, _, _, sub => pure sub
  | fuel + 1, env, d, endTok, sub => do
    let fin ← tryConsume endTok
    if fin then pure sub
    else do
      let e ← atEndPM
      if e then fun t => (t, .error (parseErrorAt t ("Expected \"" ++ endTok ++ "\"")))
      else do
        let sub ← mergeField fuel env d sub
        msgBodyLoop fuel env d endTok sub

termination_by structural fuel => fuel

/-- `mergeMapFieldEntry`: one `{…}`/`<…>` map entry; an empty body
inserts nothing. -/
def mergeMapFieldEntry : Nat → PEnv → FieldD → PMessage → PM PMessage
  | 0, _, _, msg => pure msg
  | fuel + 1, env, f, msg => do
    let endTok ← delimOpen
    let fin ← tryConsume endTok
    if fin then pure msg
    else mapEntryLoop fuel env f endTok none none msg

termination_by structural fuel => fuel

/-- The `key:`/`value:` loop of a map entry.  The `value` sub-parse is
wrapped in `try`/`catch`: when the value type is no known message type
— or when anything inside the message-shaped parse throws — the catch
continues from the state reached and parses `: <scalar>`.  On the
closing delimiter the entry is stored:
`message[field.name][String(key)] = value`, replacing any previous
value under the same property key. -/
def mapEntryLoop : Nat → PEnv → FieldD → String → Option PValue → Option PValue → PMessage → PM PMessage
  | 0, _, _, _, _, _, msg => pure msg
  | fuel + 1, env, f, endTok, key, value, msg => do
    let name ← consumeIdentifier
    let (key, value) ←
      if name = "key" then do
        consume ":"
        let k ← parseScalar f.fkeyType
        pure (some k, value)
      else if name = "value" then
        catchPM
          (do
            match lookupType env f.ftype with
            | none => throwPM ⟨"no such type: " ++ f.ftype, none, none⟩
            | some vt => do
              let _ ← tryConsume ":"
              let msgEnd ← delimOpen
              let sub ← mapValueMsgLoop fuel env vt msgEnd []
              pure (key, some (PValue.vMsg sub)))
          (fun _ => do
            consume ":"
            let v ← parseScalar f.ftype
            pure (key, some v))
      else
        fun t => (t, .error (parseErrorAt t ("Unexpected field in map entry: " ++ name)))
    let _ ← tryConsume ","
    let fin ← tryConsume endTok
    if fin then
      let entries :=
        match objGet msg f.fname with
        | some (.vMap es) => es
        | _ => []
      pure (objSet msg f.fname (.vMap (objSet entries (propKey key) (value.getD .vUndef))))
    else mapEntryLoop fuel env f endTok key value msg

termination_by structural fuel => fuel

/-- The inner `while (!tryConsume(messageEndToken)) mergeField` of a
message-shaped map value (no end-of-input check: at the end of input
`mergeField` throws and the surrounding catch takes over). -/
def mapValueMsgLoop : Nat → PEnv → MsgDescr → String → PMessage → PM PMessage
  | 0, _, _, _, sub => pure sub
  | fuel + 1, env, vt, msgEnd, sub => do
    let fin ← tryConsume msgEnd
    if fin then pure sub
    else do
      let sub ← mergeField fuel env vt sub
      mapValueMsgLoop fuel env vt msgEnd sub

termination_by structural fuel => fuel

/-- `skipField`: a field name (plain or extension), its contents, then
an optional `,` or `;`. -/
def skipField : Nat → PEnv → PM Unit
  | 0, _ => pure ()
  | fuel + 1, env => do
    let ext ← tryConsume "["
    if ext then do
      let _ ← consumeIdentifier
      extSkipLoop fuel
      consume "]"
    else do
      let _ ← consumeIdentifierOrNumber
      pure ()
    skipFieldContents fuel env
    let c ← tryConsume ","
    if c then pure ()
    else do
      let _ ← tryConsume ";"
      pure ()

termination_by structural fuel => fuel

/-- `skipFieldContents`: after an optional `:`, either a scalar, a
bracketed list, or (when a `{`/`<` follows, or there was no colon) a
message body of unknown fields. -/
def skipFieldContents : Nat → PEnv → PM Unit
  | 0, _ => pure ()
  | fuel + 1, env => do
    let b ← tryConsume ":"
    let lb ← lookingAt "\x7b"
    let la ← lookingAt "<"
    if b ∧ ¬lb ∧ ¬la then do
      let lbr ← lookingAt "["
      if lbr then skipRepeatedFieldValue fuel env else skipFieldValue
    else skipFieldMessage fuel env

termination_by structural fuel => fuel

/-- `skipFieldMessage`: a delimited body of unknown fields. -/
def skipFieldMessage : Nat → PEnv → PM Unit
  | 0, _ => pure ()
  | fuel + 1, env => do
    let d ← delimOpen
    skipMsgLoop fuel env
    consume d

termination_by structural fuel => fuel

/-- `while (!lookingAt('>') && !lookingAt('}')) skipField`. -/
def skipMsgLoop : Nat → PEnv → PM Unit
  | 0, _ => pure ()
  | fuel + 1, env => do
    let g ← lookingAt ">"
    let h ← lookingAt "\x7d"
    if ¬g ∧ ¬h then do
      skipField fuel env
      skipMsgLoop fuel env
    else pure ()

termination_by structural fuel => fuel

/-- `skipRepeatedFieldValue`: `[` then comma-separated scalars or
message bodies until `]`. -/
def skipRepeatedFieldValue : Nat → PEnv → PM Unit
  | 0, _ => pure ()
  | fuel + 1, env => do
    consume "["
    let fin ← tryConsume "]"
    if fin then pure () else skipRepLoop fuel env

termination_by structural fuel => fuel

def skipRepLoop : Nat → PEnv → PM Unit
  | 0, _ => pure ()
  | fuel + 1, env => do
    let lb ← lookingAt "<"
    let lb2 ← lookingAt "\x7b"
    if lb ∨ lb2 then skipFieldMessage fuel env else skipFieldValue
    let fin ← tryConsume "]"
    if fin then pure ()
    else do
      consume ","
      skipRepLoop fuel env

end

/-- `parseLines`: `while (!tokenizer.atEnd()) mergeField(...)`. -/
def parseLinesLoop : Nat → PEnv → MsgDescr → PMessage → PM PMessage
  | 0, _, _, msg => pure msg
  | fuel + 1, env, desc, msg => do
    let e ← atEndPM
    if e then pure msg
    else do
      let msg ← mergeField fuel env desc msg
      parseLinesLoop fuel env desc msg

/-- `parse(text, message)`: split on LF, tokenize, merge until the end
of input.  The fuel is a generous input-size bound (every loop
iteration and recursion step consumes input). -/
def parseText (env : PEnv) (desc : MsgDescr) (text : String) (msg : PMessage) :
    Tok × Except PErr PMessage :=
  parseLinesLoop (text.data.length * 4 + 64) env desc msg (mkTokenizer (jsSplitNL text))

/-- Parse into a freshly created empty message. -/
def parseResult (env : PEnv) (desc : MsgDescr) (text : String) : Except PErr PMessage :=
  (parseText env desc text []).2

/-! ## Test schema

One message descriptor exercising every field shape the claims touch,
mirroring the repository's `test.proto` fixtures. -/

def fldString : FieldD := .mk "stringField" 1 "string" false false "" none

def fldBytes : FieldD := .mk "bytesField" 2 "bytes" false false "" none

def fldInt32 : FieldD := .mk "int32Field" 3 "int32" false false "" none

def fldUint32 : FieldD := .mk "uint32Field" 4 "uint32" false false "" none

def fldInt64 : FieldD := .mk "int64Field" 5 "int64" false false "" none

def fldUint64 : FieldD := .mk "uint64Field" 6 "uint64" false false "" none

def fldFloat : FieldD := .mk "floatField" 7 "float" false false "" none

def fldDouble : FieldD := .mk "doubleField" 8 "double" false false "" none

def testEnum : EnumDescr := .mk "TestEnum" [("FOO", 1), ("BAR", 2), ("NEG", -1)]

def fldEnumList : FieldD := .mk "enumListField" 9 "TestEnum" true false "" (some (.enumD testEnum))

def fldStringIntMap : FieldD := .mk "stringIntMap" 10 "int32" false true "string" none

def testMsgD : MsgDescr :=
  .mk "TestMessage" ".test.TestMessage"
    [fldString, fldBytes, fldInt32, fldUint32, fldInt64, fldUint64,
     fldFloat, fldDouble, fldEnumList, fldStringIntMap]

def envPlain : PEnv := PEnv.default

def envUnknown : PEnv := { PEnv.default with allowUnknownField := true }

/-- The error message of a failed parse, if any. -/
def errMsg {α : Type} : Except PErr α → Option String
  | .error e => some e.msg
  | .ok _ => none

/-- Lexicographic order on (line, column) positions. -/
def lexLE (a b : Int × Nat) : Prop := a.1 < b.1 ∨ (a.1 = b.1 ∧ a.2 ≤ b.2)

/-! ## Helper lemmas: character classes and scanning -/

theorem hex_not_ws (c : Char) (h : isHexDigitJs c = true) : isJsWs c = false := by
  by_contra hw
  rw [Bool.not_eq_false] at hw
  simp only [isJsWs, Bool.or_eq_true, decide_eq_true_eq] at hw
  rcases hw with ((((((h1 | h1) | h1) | h1) | h1) | h1) | h1) <;> subst h1 <;> simp [isHexDigitJs] at h

theorem oct_not_ws (c : Char) (h : isOctDigit c = true) : isJsWs c = false := by
  by_contra hw
  rw [Bool.not_eq_false] at hw
  simp only [isJsWs, Bool.or_eq_true, decide_eq_true_eq] at hw
  rcases hw with ((((((h1 | h1) | h1) | h1) | h1) | h1) | h1) <;> subst h1 <;> simp [isOctDigit] at h

theorem digit_not_ws (c : Char) (h : c.isDigit = true) : isJsWs c = false := by
  by_contra hw
  rw [Bool.not_eq_false] at hw
  simp only [isJsWs, Bool.or_eq_true, decide_eq_true_eq] at hw
  rcases hw with ((((((h1 | h1) | h1) | h1) | h1) | h1) | h1) <;> subst h1 <;> simp [Char.isDigit] at h

theorem dropWhile_eq_self_of_forall {p : Char → Bool} :
    ∀ {xs : List Char}, (∀ c ∈ xs, p c = false) → xs.dropWhile p = xs := by
  intro xs h
  induction xs with
  | nil => rfl
  | cons c t _ =>
    rw [List.dropWhile_cons]
    simp [h c (by simp)]

theorem trimRight_eq_self {xs : List Char} (h : ∀ c ∈ xs, isJsWs c = false) :
    (xs.reverse.dropWhile isJsWs).reverse = xs := by
  rw [dropWhile_eq_self_of_forall (by intro c hc; exact h c (List.mem_reverse.mp hc))]
  exact xs.reverse_reverse

theorem takeWhile_eq_self_of_forall {p : Char → Bool} :
    ∀ {xs : List Char}, (∀ c ∈ xs, p c = true) → xs.takeWhile p = xs := by
  intro xs h
  induction xs with
  | nil => rfl
  | cons c t ih =>
    rw [List.takeWhile_cons]
    simp only [h c (by simp), if_true]
    rw [ih (by intro d hd; exact h d (by simp [hd]))]

/-! ## Helper lemmas for the numeric-base claims -/

theorem jsNumberInt_hex (x : Char) (hx : x = 'x' ∨ x = 'X') (ds : List Char) (h1 : ds ≠ [])
    (h2 : ds.all isHexDigitJs = true) :
    jsNumberInt ⟨'0' :: x :: ds⟩ = some (digitsVal 16 hexDigitVal ds : Int) := by
  have hall := List.all_eq_true.mp h2
  have hws : ∀ c ∈ ('0' :: x :: ds), isJsWs c = false := by
    intro c hc
    simp only [List.mem_cons] at hc
    rcases hc with rfl | rfl | hc
    · decide
    · rcases hx with rfl | rfl <;> decide
    · exact hex_not_ws c (hall c hc)
  have hd := dropWhile_eq_self_of_forall hws
  have ht := trimRight_eq_self hws
  rcases hx with rfl | rfl <;>
  · simp only [jsNumberInt, hd, ht]
    simp [h1, h2]

theorem jsParseInt16_neg (x : Char) (hx : x = 'x' ∨ x = 'X') (ds : List Char) (h1 : ds ≠ [])
    (h2 : ds.all isHexDigitJs = true) :
    jsParseInt16 ⟨'-' :: '0' :: x :: ds⟩ = some (-(digitsVal 16 hexDigitVal ds : Int)) := by
  have hall := List.all_eq_true.mp h2
  have hws : ∀ c ∈ ('-' :: '0' :: x :: ds), isJsWs c = false := by
    intro c hc
    simp only [List.mem_cons] at hc
    rcases hc with rfl | rfl | rfl | hc
    · decide
    · decide
    · rcases hx with rfl | rfl <;> decide
    · exact hex_not_ws c (hall c hc)
  have hd := dropWhile_eq_self_of_forall hws
  rcases hx with rfl | rfl <;>
  · simp only [jsParseInt16, jsParseInt, hd]
    simp [takeWhile_eq_self_of_forall hall, h1]

theorem jsNumberInt_dec (c : Char) (ds : List Char) (hc : c.isDigit = true) (hc0 : c ≠ '0')
    (hds : ds.all Char.isDigit = true) :
    jsNumberInt ⟨c :: ds⟩ = some (digitsVal 10 digitVal (c :: ds) : Int) := by
  have hall := List.all_eq_true.mp hds
  have hws : ∀ d ∈ (c :: ds), isJsWs d = false := by
    intro d hd
    simp only [List.mem_cons] at hd
    rcases hd with rfl | hd
    · exact digit_not_ws d hc
    · exact digit_not_ws d (hall d hd)
  have hcm : c ≠ '-' := by intro h; subst h; exact absurd hc (by decide)
  have hcp : c ≠ '+' := by intro h; subst h; exact absurd hc (by decide)
  have hc0' : ¬('0' = c) := fun h => hc0 h.symm
  have hd := dropWhile_eq_self_of_forall hws
  have ht := trimRight_eq_self hws
  simp only [jsNumberInt, hd, ht]
  simp [hc0, hc0', hcm, hcp, hc, hds]

theorem jsNumberInt_negDec (c : Char) (ds : List Char) (hc : c.isDigit = true) (hc0 : c ≠ '0')
    (hds : ds.all Char.isDigit = true) :
    jsNumberInt ⟨'-' :: c :: ds⟩ = some (-(digitsVal 10 digitVal (c :: ds) : Int)) := by
  have hall := List.all_eq_true.mp hds
  have hws : ∀ d ∈ ('-' :: c :: ds), isJsWs d = false := by
    intro d hd
    simp only [List.mem_cons] at hd
    rcases hd with rfl | rfl | hd
    · decide
    · exact digit_not_ws d hc
    · exact digit_not_ws d (hall d hd)
  have hc0' : ¬('0' = c) := fun h => hc0 h.symm
  have hd := dropWhile_eq_self_of_forall hws
  have ht := trimRight_eq_self hws
  simp only [jsNumberInt, hd, ht]
  simp [hc0, hc0', hc, hds]

theorem parseIntegerNum_hex (x : Char) (hx : x = 'x' ∨ x = 'X') (ds : List Char) (h1 : ds ≠ [])
    (h2 : ds.all isHexDigitJs = true) :
    parseIntegerNum ⟨'0' :: x :: ds⟩ = some (digitsVal 16 hexDigitVal ds : Int) := by
  have hbr : (strStartsWith ⟨'0' :: x :: ds⟩ "0x" || strStartsWith ⟨'0' :: x :: ds⟩ "0X") = true := by
    rcases hx with rfl | rfl <;> simp [strStartsWith, List.isPrefixOf]
  rw [parseIntegerNum, if_pos hbr]
  exact jsNumberInt_hex x hx ds h1 h2

theorem parseIntegerNum_negHex (x : Char) (hx : x = 'x' ∨ x = 'X') (ds : List Char)
    (h1 : ds ≠ []) (h2 : ds.all isHexDigitJs = true) :
    parseIntegerNum ⟨'-' :: '0' :: x :: ds⟩ = some (-(digitsVal 16 hexDigitVal ds : Int)) := by
  have hbr1 : (strStartsWith ⟨'-' :: '0' :: x :: ds⟩ "0x" ||
      strStartsWith ⟨'-' :: '0' :: x :: ds⟩ "0X") = false := by
    simp [strStartsWith, List.isPrefixOf]
  have hbr2 : (strStartsWith ⟨'-' :: '0' :: x :: ds⟩ "-0x" ||
      strStartsWith ⟨'-' :: '0' :: x :: ds⟩ "-0X") = true := by
    rcases hx with rfl | rfl <;> simp [strStartsWith, List.isPrefixOf]
  rw [parseIntegerNum, if_neg (by simp [hbr1]), if_pos hbr2]
  exact jsParseInt16_neg x hx ds h1 h2

theorem parseIntegerNum_oct (ds : List Char) (h1 : ds ≠ []) (h2 : ds.all isOctDigit = true) :
    parseIntegerNum ⟨'0' :: ds⟩ = some (digitsVal 8 digitVal ds : Int) := by
  obtain ⟨d, ds', rfl⟩ := List.exists_cons_of_ne_nil h1
  have hall := List.all_eq_true.mp h2
  have hd : isOctDigit d = true := hall d (by simp)
  have hdx : ¬('x' = d) := by intro h; rw [← h] at hd; exact absurd hd (by decide)
  have hdX : ¬('X' = d) := by intro h; rw [← h] at hd; exact absurd hd (by decide)
  have hbr1 : (strStartsWith ⟨'0' :: d :: ds'⟩ "0x" ||
      strStartsWith ⟨'0' :: d :: ds'⟩ "0X") = false := by
    simp [strStartsWith, List.isPrefixOf, hdx, hdX]
  have hbr2 : (strStartsWith ⟨'0' :: d :: ds'⟩ "-0x" ||
      strStartsWith ⟨'0' :: d :: ds'⟩ "-0X") = false := by
    simp [strStartsWith, List.isPrefixOf]
  have hoct : isOctalForm ⟨'0' :: d :: ds'⟩ = true := by
    simp [isOctalForm, h2]
  have hoall : ∀ c ∈ ('0' :: d :: ds'), isOctDigit c = true := by
    intro c hc
    simp only [List.mem_cons] at hc
    rcases hc with rfl | rfl | hc
    · decide
    · exact hd
    · exact hall c (by simp [hc])
  have hws : ∀ c ∈ ('0' :: d :: ds'), isJsWs c = false := by
    intro c hc
    exact oct_not_ws c (hoall c hc)
  have hzero : digitsVal 8 digitVal ('0' :: d :: ds') = digitsVal 8 digitVal (d :: ds') := by
    simp [digitsVal, digitVal]
  have hdw := dropWhile_eq_self_of_forall hws
  rw [parseIntegerNum, if_neg (by simp [hbr1]), if_neg (by simp [hbr2]), if_pos hoct]
  rw [← hzero]
  simp only [jsParseInt8, jsParseInt, hdw]
  simp [takeWhile_eq_self_of_forall hoall]

theorem parseIntegerNum_dec (c : Char) (ds : List Char) (hc : c.isDigit = true) (hc0 : c ≠ '0')
    (hds : ds.all Char.isDigit = true) :
    parseIntegerNum ⟨c :: ds⟩ = some (digitsVal 10 digitVal (c :: ds) : Int) := by
  have hcm : ¬('-' = c) := by intro h; rw [← h] at hc; exact absurd hc (by decide)
  have hcm' : c ≠ '-' := fun h => hcm h.symm
  have hc0' : ¬('0' = c) := fun h => hc0 h.symm
  have hbr1 : (strStartsWith ⟨c :: ds⟩ "0x" || strStartsWith ⟨c :: ds⟩ "0X") = false := by
    simp [strStartsWith, List.isPrefixOf, hc0']
  have hbr2 : (strStartsWith ⟨c :: ds⟩ "-0x" || strStartsWith ⟨c :: ds⟩ "-0X") = false := by
    simp [strStartsWith, List.isPrefixOf, hcm]
  have hoct : isOctalForm ⟨c :: ds⟩ = false := by
    simp [isOctalForm, hcm', hc0]
  rw [parseIntegerNum, if_neg (by simp [hbr1]), if_neg (by simp [hbr2]), if_neg (by simp [hoct])]
  exact jsNumberInt_dec c ds hc hc0 hds

theorem parseIntegerNum_negDec (c : Char) (ds : List Char) (hc : c.isDigit = true)
    (hc0 : c ≠ '0') (hds : ds.all Char.isDigit = true) :
    parseIntegerNum ⟨'-' :: c :: ds⟩ = some (-(digitsVal 10 digitVal (c :: ds) : Int)) := by
  have hc0' : ¬('0' = c) := fun h => hc0 h.symm
  have hbr1 : (strStartsWith ⟨'-' :: c :: ds⟩ "0x" ||
      strStartsWith ⟨'-' :: c :: ds⟩ "0X") = false := by
    simp [strStartsWith, List.isPrefixOf]
  have hbr2 : (strStartsWith ⟨'-' :: c :: ds⟩ "-0x" ||
      strStartsWith ⟨'-' :: c :: ds⟩ "-0X") = false := by
    simp [strStartsWith, List.isPrefixOf, hc0']
  have hoct : isOctalForm ⟨'-' :: c :: ds⟩ = false := by
    simp [isOctalForm, hc0]
  rw [parseIntegerNum, if_neg (by simp [hbr1]), if_neg (by simp [hbr2]), if_neg (by simp [hoct])]
  exact jsNumberInt_negDec c ds hc hc0 hds

/-- The two `parseInteger` instantiations coincide on this model: within
the integer-literal fragment, `Number(s)` and `BigInt(s)` agree (they
differ only on fractional/exponent forms, outside the modelled
fragment). -/
theorem parseIntegerBig_eq_num : parseIntegerBig = parseIntegerNum := by
  funext s
  simp [parseIntegerBig, parseIntegerNum, jsBigInt]

/-! ## Claim theorems -/

/-- C1: the integer consume operations detect the numeric base from the
token's textual form — a `0x`/`0X` prefix (optionally preceded by `-`)
is hexadecimal, a leading `0` followed by only octal digits is C-style
octal, and otherwise the token is signed decimal — so `042` parses to
34, `0x2A` to 42, `-0x2A` to -42 and `42` to 42, for `consumeInt32`,
`consumeUint32`, `consumeInt64` and `consumeUint64` alike. -/
theorem c1_integer_base_detection :
    (∀ (x : Char), (x = 'x' ∨ x = 'X') → ∀ (ds : List Char), ds ≠ [] →
      ds.all isHexDigitJs = true →
      parseIntegerNum ⟨'0' :: x :: ds⟩ = some (digitsVal 16 hexDigitVal ds : Int) ∧
      parseIntegerNum ⟨'-' :: '0' :: x :: ds⟩ = some (-(digitsVal 16 hexDigitVal ds : Int)) ∧
      parseIntegerBig ⟨'0' :: x :: ds⟩ = some (digitsVal 16 hexDigitVal ds : Int) ∧
      parseIntegerBig ⟨'-' :: '0' :: x :: ds⟩ = some (-(digitsVal 16 hexDigitVal ds : Int))) ∧
    (∀ (ds : List Char), ds ≠ [] → ds.all isOctDigit = true →
      parseIntegerNum ⟨'0' :: ds⟩ = some (digitsVal 8 digitVal ds : Int) ∧
      parseIntegerBig ⟨'0' :: ds⟩ = some (digitsVal 8 digitVal ds : Int)) ∧
    (∀ (c : Char) (ds : List Char), c.isDigit = true → c ≠ '0' →
      ds.all Char.isDigit = true →
      parseIntegerNum ⟨c :: ds⟩ = some (digitsVal 10 digitVal (c :: ds) : Int) ∧
      parseIntegerNum ⟨'-' :: c :: ds⟩ = some (-(digitsVal 10 digitVal (c :: ds) : Int)) ∧
      parseIntegerBig ⟨c :: ds⟩ = some (digitsVal 10 digitVal (c :: ds) : Int) ∧
      parseIntegerBig ⟨'-' :: c :: ds⟩ = some (-(digitsVal 10 digitVal (c :: ds) : Int))) ∧
    ((consumeInt32 (mkTokenizer (jsSplitNL "042"))).2 = .ok 34 ∧
      (consumeInt32 (mkTokenizer (jsSplitNL "0x2A"))).2 = .ok 42 ∧
      (consumeInt32 (mkTokenizer (jsSplitNL "-0x2A"))).2 = .ok (-42) ∧
      (consumeInt32 (mkTokenizer (jsSplitNL "42"))).2 = .ok 42) ∧
    ((consumeUint32 (mkTokenizer (jsSplitNL "042"))).2 = .ok 34 ∧
      (consumeUint32 (mkTokenizer (jsSplitNL "0x2A"))).2 = .ok 42 ∧
      (consumeUint32 (mkTokenizer (jsSplitNL "-0x2A"))).2 = .ok (-42) ∧
      (consumeUint32 (mkTokenizer (jsSplitNL "42"))).2 = .ok 42) ∧
    ((consumeInt64 (mkTokenizer (jsSplitNL "042"))).2 = .ok 34 ∧
      (consumeInt64 (mkTokenizer (jsSplitNL "0x2A"))).2 = .ok 42 ∧
      (consumeInt64 (mkTokenizer (jsSplitNL "-0x2A"))).2 = .ok (-42) ∧
      (consumeInt64 (mkTokenizer (jsSplitNL "42"))).2 = .ok 42) ∧
    ((consumeUint64 (mkTokenizer (jsSplitNL "042"))).2 = .ok 34 ∧
      (consumeUint64 (mkTokenizer (jsSplitNL "0x2A"))).2 = .ok 42 ∧
      (consumeUint64 (mkTokenizer (jsSplitNL "-0x2A"))).2 = .ok (-42) ∧
      (consumeUint64 (mkTokenizer (jsSplitNL "42"))).2 = .ok 42) := by
  refine ⟨?_, ?_, ?_, ?_, ?_, ?_, ?_⟩
  · intro x hx ds h1 h2
    exact ⟨parseIntegerNum_hex x hx ds h1 h2, parseIntegerNum_negHex x hx ds h1 h2,
      by rw [parseIntegerBig_eq_num]; exact parseIntegerNum_hex x hx ds h1 h2,
      by rw [parseIntegerBig_eq_num]; exact parseIntegerNum_negHex x hx ds h1 h2⟩
  · intro ds h1 h2
    exact ⟨parseIntegerNum_oct ds h1 h2,
      by rw [parseIntegerBig_eq_num]; exact parseIntegerNum_oct ds h1 h2⟩
  · intro c ds hc hc0 hds
    exact ⟨parseIntegerNum_dec c ds hc hc0 hds, parseIntegerNum_negDec c ds hc hc0 hds,
      by rw [parseIntegerBig_eq_num]; exact parseIntegerNum_dec c ds hc hc0 hds,
      by rw [parseIntegerBig_eq_num]; exact parseIntegerNum_negDec c ds hc hc0 hds⟩
  · exact ⟨by decide, by decide, by decide, by decide⟩
  · exact ⟨by decide, by decide, by decide, by decide⟩
  · exact ⟨by decide, by decide, by decide, by decide⟩
  · exact ⟨by decide, by decide, by decide, by decide⟩

/-- C1 witness: the general base-detection statements instantiated at
the spec's concrete tokens. -/
theorem c1_integer_base_detection_witness :
    parseIntegerNum ⟨['0', 'x', '2', 'A']⟩ = some (digitsVal 16 hexDigitVal ['2', 'A'] : Int) ∧
    parseIntegerNum ⟨['-', '0', 'X', '2', 'A']⟩ =
      some (-(digitsVal 16 hexDigitVal ['2', 'A'] : Int)) ∧
    parseIntegerBig ⟨['0', '4', '2']⟩ = some (digitsVal 8 digitVal ['4', '2'] : Int) ∧
    parseIntegerNum ⟨['4', '2']⟩ = some (digitsVal 10 digitVal ['4', '2'] : Int) ∧
    parseIntegerBig ⟨['-', '4', '2']⟩ = some (-(digitsVal 10 digitVal ['4', '2'] : Int)) := by
  refine ⟨?_, ?_, ?_, ?_, ?_⟩
  · exact (c1_integer_base_detection.1 'x' (Or.inl rfl) ['2', 'A'] (by decide) (by decide)).1
  · exact (c1_integer_base_detection.1 'X' (Or.inr rfl) ['2', 'A'] (by decide) (by decide)).2.1
  · exact (c1_integer_base_detection.2.1 ['4', '2'] (by decide) (by decide)).2
  · exact (c1_integer_base_detection.2.2.1 '4' ['2'] (by decide) (by decide) (by decide)).1
  · exact (c1_integer_base_detection.2.2.1 '4' ['2'] (by decide) (by decide) (by decide)).2.2.2

/-! ## Helper lemmas: a trailing `F` is invisible to `parseFloat`

`parseFloat` keeps the longest valid decimal-literal prefix, and `F` can
occur in no such literal, so appending `F` never changes the result.
(The code only slices off a trailing lowercase `f` explicitly; for `F`
the equality below is why the observable value still matches the
claim.) -/

theorem takeWhile_appc {p : Char → Bool} {c : Char} (h : p c = false) :
    ∀ u : List Char, (u ++ [c]).takeWhile p = u.takeWhile p := by
  intro u
  induction u with
  | nil => simp [List.takeWhile_cons, h]
  | cons d t ih =>
    rw [List.cons_append, List.takeWhile_cons, List.takeWhile_cons]
    by_cases hd : p d = true
    · rw [if_pos hd, if_pos hd, ih]
    · rw [if_neg hd, if_neg hd]

theorem dropWhile_appc {p : Char → Bool} {c : Char} (h : p c = false) :
    ∀ u : List Char, (u ++ [c]).dropWhile p = u.dropWhile p ++ [c] := by
  intro u
  induction u with
  | nil => simp [List.dropWhile_cons, h]
  | cons d t ih =>
    rw [List.cons_append, List.dropWhile_cons, List.dropWhile_cons]
    by_cases hd : p d = true
    · rw [if_pos hd, if_pos hd, ih]
    · rw [if_neg hd, if_neg hd, List.cons_append]

theorem isPrefixOf_appc {c : Char} : ∀ (w u : List Char), c ∉ w →
    (w.isPrefixOf (u ++ [c])) = w.isPrefixOf u := by
  intro w
  induction w with
  | nil => intro u _; simp [List.isPrefixOf]
  | cons a w' ih =>
    intro u hc
    cases u with
    | nil =>
      have ha : (a == c) = false := by
        simp only [beq_eq_false_iff_ne, ne_eq]
        intro h
        exact hc (by simp [h])
      cases w' with
      | nil => simp [List.isPrefixOf, ha]
      | cons b w'' => simp [List.isPrefixOf, ha]
    | cons b u' =>
      rw [List.cons_append]
      show (a == b && w'.isPrefixOf (u' ++ [c])) = (a == b && w'.isPrefixOf u')
      rw [ih u' (fun h => hc (by simp [h]))]

theorem expPartVal_appF : ∀ v : List Char, expPartVal (v ++ ['F']) = expPartVal v := by
  have hF : Char.isDigit 'F' = false := by decide
  intro v
  cases v with
  | nil => decide
  | cons c t =>
    show expPartVal (c :: (t ++ ['F'])) = expPartVal (c :: t)
    by_cases hce : c = 'e' ∨ c = 'E'
    · cases t with
      | nil =>
        simp only [expPartVal, if_pos hce]
        decide
      | cons d t' =>
        simp only [expPartVal, if_pos hce, List.cons_append, List.head?_cons, List.drop_one,
          List.tail_cons, apply_ite (List.takeWhile Char.isDigit), List.takeWhile_cons,
          takeWhile_appc hF]
    · simp only [expPartVal, if_neg hce]

theorem parseFloatUnsigned_appF (neg : Bool) :
    ∀ u : List Char, parseFloatUnsigned neg (u ++ ['F']) = parseFloatUnsigned neg u := by
  have hF : Char.isDigit 'F' = false := by decide
  have hInf : 'F' ∉ "Infinity".data := by decide
  have hE : ∀ (d : Char) (t : List Char),
      expPartVal (d :: (t ++ ['F'])) = expPartVal (d :: t) :=
    fun d t => expPartVal_appF (d :: t)
  intro u
  simp only [parseFloatUnsigned, isPrefixOf_appc "Infinity".data u hInf]
  by_cases hi : "Infinity".data.isPrefixOf u = true
  · simp only [if_pos hi]
  · simp only [if_neg hi, takeWhile_appc hF, dropWhile_appc hF]
    generalize u.dropWhile Char.isDigit = r1
    cases r1 with
    | nil =>
      have h1 : ¬(some 'F' = some '.') := by decide
      have h2 : ¬((none : Option Char) = some '.') := by decide
      simp only [List.nil_append, List.head?_cons, List.head?_nil, if_neg h1, if_neg h2]
      rw [show expPartVal ['F'] = expPartVal ([] : List Char) from by decide]
    | cons d t =>
      simp only [List.cons_append, List.head?_cons, List.drop_one, List.tail_cons,
        takeWhile_appc hF, dropWhile_appc hF, apply_ite expPartVal, expPartVal_appF, hE]

theorem parseFloatVal_appF (s : String) (h : strEndsWith s 'F' = true) :
    parseFloatVal s = parseFloatVal (strDropLast s) := by
  have hFw : isJsWs 'F' = false := by decide
  have hne : s.data ≠ [] := by
    intro h0
    unfold strEndsWith at h
    rw [h0] at h
    simp at h
  have hlast : s.data.getLast hne = 'F' := by
    unfold strEndsWith at h
    rw [List.getLast?_eq_getLast s.data hne] at h
    simpa using h
  obtain ⟨u, hu⟩ : ∃ u, s.data = u ++ ['F'] :=
    ⟨s.data.dropLast, by
      conv_lhs => rw [← List.dropLast_append_getLast hne, hlast]⟩
  have hdl : strDropLast s = ⟨u⟩ := by
    simp only [strDropLast, hu]
    rw [List.dropLast_concat]
  rw [hdl]
  have hmk : (⟨u⟩ : String).data = u := rfl
  have hPU : ∀ (b : Bool) (d : Char) (t : List Char),
      parseFloatUnsigned b (d :: (t ++ ['F'])) = parseFloatUnsigned b (d :: t) :=
    fun b d t => parseFloatUnsigned_appF b (d :: t)
  simp only [parseFloatVal, hu, hmk, dropWhile_appc hFw]
  generalize u.dropWhile isJsWs = v
  cases v with
  | nil =>
    have h1 : ¬(some 'F' = some '+') := by decide
    have h2 : ¬(some 'F' = some '-') := by decide
    have h3 : ¬((none : Option Char) = some '+') := by decide
    have h4 : ¬((none : Option Char) = some '-') := by decide
    simp only [List.nil_append, List.head?_cons, List.head?_nil, if_neg h1, if_neg h2,
      if_neg h3, if_neg h4]
    exact parseFloatUnsigned_appF false []
  | cons d t =>
    simp only [List.cons_append, List.head?_cons, List.drop_one, List.tail_cons]
    by_cases hp : some d = some '+'
    · simp only [if_pos hp]
      exact parseFloatUnsigned_appF false t
    · simp only [if_neg hp]
      by_cases hm : some d = some '-'
      · simp only [if_pos hm]
        exact parseFloatUnsigned_appF true t
      · simp only [if_neg hm]
        exact hPU false d t

end Pbtxt

namespace Pbtxt

/-- C2 (code evidence): none of the integer consume operations performs
a range check — `consumeInt32` accepts 2^31 (out of the signed 32-bit
domain), `consumeUint32` accepts -1, `consumeInt64` accepts 2^63 and
`consumeUint64` accepts 2^64, each returning the out-of-range value
instead of raising `Couldn't parse integer`. -/
theorem c2_no_range_check_evidence :
    (consumeInt32 (mkTokenizer (jsSplitNL "2147483648"))).2 = .ok 2147483648 ∧
    ¬(2147483648 : Int) ≤ 2 ^ 31 - 1 ∧
    (consumeUint32 (mkTokenizer (jsSplitNL "-1"))).2 = .ok (-1) ∧ ¬(0 : Int) ≤ -1 ∧
    (consumeInt64 (mkTokenizer (jsSplitNL "9223372036854775808"))).2 =
      .ok 9223372036854775808 ∧
    ¬(9223372036854775808 : Int) ≤ 2 ^ 63 - 1 ∧
    (consumeUint64 (mkTokenizer (jsSplitNL "18446744073709551616"))).2 =
      .ok 18446744073709551616 ∧
    ¬(18446744073709551616 : Int) ≤ 2 ^ 64 - 1 := by
  refine ⟨by decide, by decide, by decide, by decide, by decide, by decide, by decide, by decide⟩

/-- C3: `consumeFloat` resolves the case-insensitive identifiers `inf`,
`infinity`, `-inf`, `-infinity` and `nan` to +Infinity, -Infinity and
NaN, and otherwise a trailing `f` or `F` is stripped from the token
before the float parse (for `f` the code slices it off; for `F` the
result is the same because `parseFloat` never consumes an `F`). -/
theorem c3_float_specials_and_suffix :
    (∀ s : String, (jsToLower s = "inf" ∨ jsToLower s = "infinity") →
      consumeFloatTok s = .inf) ∧
    (∀ s : String, (jsToLower s = "-inf" ∨ jsToLower s = "-infinity") →
      consumeFloatTok s = .negInf) ∧
    (∀ s : String, jsToLower s = "nan" → consumeFloatTok s = .nan) ∧
    (∀ s : String,
      ¬(jsToLower s = "inf" ∨ jsToLower s = "infinity") →
      ¬(jsToLower s = "-inf" ∨ jsToLower s = "-infinity") →
      ¬(jsToLower s = "nan") →
      (strEndsWith s 'f' = true ∨ strEndsWith s 'F' = true) →
      consumeFloatTok s = parseFloatVal (strDropLast s)) := by
  refine ⟨?_, ?_, ?_, ?_⟩
  · intro s h
    simp [consumeFloatTok, h]
  · intro s h
    have h1 : ¬(jsToLower s = "inf" ∨ jsToLower s = "infinity") := by
      rcases h with h | h <;> rw [h] <;> simp
    simp [consumeFloatTok, h1, h]
  · intro s h
    have h1 : ¬(jsToLower s = "inf" ∨ jsToLower s = "infinity") := by rw [h]; simp
    have h2 : ¬(jsToLower s = "-inf" ∨ jsToLower s = "-infinity") := by rw [h]; simp
    simp [consumeFloatTok, h1, h2, h]
  · intro s h1 h2 h3 hf
    rcases hf with hf | hf
    · simp [consumeFloatTok, h1, h2, h3, hf]
    · have hnotf : strEndsWith s 'f' = false := by
        unfold strEndsWith at hf ⊢
        rcases hl : s.data.getLast? with _ | d
        · rw [hl] at hf
        · rw [hl] at hf
          have hd : d = 'F' := by simpa using hf
          subst hd
          decide
      simp only [consumeFloatTok, if_neg h1, if_neg h2, if_neg h3, hnotf,
        Bool.false_eq_true, if_false]
      exact parseFloatVal_appF s hf

/-- C3 witness: the special identifiers and suffix stripping at concrete
tokens. -/
theorem c3_float_specials_and_suffix_witness :
    consumeFloatTok "INF" = .inf ∧
    consumeFloatTok "-Infinity" = .negInf ∧
    consumeFloatTok "NaN" = .nan ∧
    consumeFloatTok "3.5F" = parseFloatVal (strDropLast "3.5F") ∧
    consumeFloatTok "2.5f" = parseFloatVal (strDropLast "2.5f") := by
  refine ⟨?_, ?_, ?_, ?_, ?_⟩
  · exact c3_float_specials_and_suffix.1 "INF" (Or.inl (by decide))
  · exact c3_float_specials_and_suffix.2.1 "-Infinity" (Or.inr (by decide))
  · exact c3_float_specials_and_suffix.2.2.1 "NaN" (by decide)
  · exact c3_float_specials_and_suffix.2.2.2 "3.5F" (by decide) (by decide) (by decide)
      (Or.inr (by decide))
  · exact c3_float_specials_and_suffix.2.2.2 "2.5f" (by decide) (by decide) (by decide)
      (Or.inl (by decide))

/-- C10 (implicit): `consumeFloat` never raises — for every tokenizer
state it advances past the current token and returns its
`consumeFloatTok` value, so `parseScalar` on `float`/`double` always
succeeds and a malformed value for a float or double field is silently
stored as NaN, while the same token under an int32 field raises
`Couldn't parse integer`. -/
theorem c10_consume_float_never_raises :
    (∀ t : Tok, consumeFloat t = (nextToken t, Except.ok (consumeFloatTok t.token))) ∧
    (∀ t : Tok, parseScalar "float" t =
      (nextToken t, Except.ok (.vFloat (consumeFloatTok t.token)))) ∧
    (∀ t : Tok, parseScalar "double" t =
      (nextToken t, Except.ok (.vFloat (consumeFloatTok t.token)))) ∧
    parseResult envPlain testMsgD "float_field: bogus_value" =
      .ok [("floatField", .vFloat .nan)] ∧
    parseResult envPlain testMsgD "double_field: bogus_value" =
      .ok [("doubleField", .vFloat .nan)] ∧
    errMsg (parseResult envPlain testMsgD "int32_field: bogus_value") =
      some "Couldn't parse integer: bogus_value" := by
  exact ⟨fun t => rfl, fun t => rfl, fun t => rfl, by rfl, by rfl, by rfl⟩

/-- C6: with `allowUnknownField`, an unresolvable plain field whose
value is a scalar (quoted string, number or identifier), a bracketed
list (of scalars or message bodies), or a braced/angled message body is
skipped without raising; in particular `unknown_field: "x"` followed by
`string_field: "y"` parses and leaves `stringField = "y"`.  Without the
option the same input raises the has-no-field error. -/
theorem c6_unknown_field_skipping :
    parseResult envUnknown testMsgD "unknown_field: \"x\"\nstring_field: \"y\"" =
      .ok [("stringField", .vStr (strUnits "y"))] ∧
    parseResult envUnknown testMsgD "unknown_field: 42\nstring_field: \"y\"" =
      .ok [("stringField", .vStr (strUnits "y"))] ∧
    parseResult envUnknown testMsgD "unknown_field: some_ident\nstring_field: \"y\"" =
      .ok [("stringField", .vStr (strUnits "y"))] ∧
    parseResult envUnknown testMsgD "unknown_field: [1, \"x\", foo]\nstring_field: \"y\"" =
      .ok [("stringField", .vStr (strUnits "y"))] ∧
    parseResult envUnknown testMsgD "unknown_field: [\x7b a: 1 \x7d, 2]\nstring_field: \"y\"" =
      .ok [("stringField", .vStr (strUnits "y"))] ∧
    parseResult envUnknown testMsgD
        "unknown_field \x7b a: 1 b \x7b c: \"z\" \x7d \x7d\nstring_field: \"y\"" =
      .ok [("stringField", .vStr (strUnits "y"))] ∧
    parseResult envUnknown testMsgD "unknown_field < a: 1 >\nstring_field: \"y\"" =
      .ok [("stringField", .vStr (strUnits "y"))] ∧
    parseResult envUnknown testMsgD "unknown_field: \x7b a: 1 \x7d\nstring_field: \"y\"" =
      .ok [("stringField", .vStr (strUnits "y"))] ∧
    errMsg (parseResult envPlain testMsgD "unknown_field: \"x\"\nstring_field: \"y\"") =
      some "Message type \".test.TestMessage\" has no field named \"unknown_field\"." := by
  exact ⟨by rfl, by rfl, by rfl, by rfl, by rfl, by rfl, by rfl, by rfl, by rfl⟩

/-- C7: for a repeated enum field the colon is required and the list
form is supported — `enum_list_field: [FOO, 2, BAR]` appends the listed
values in order (and on top of previously accumulated values), while a
missing colon raises `Expected ":".`. -/
theorem c7_repeated_enum_list :
    parseResult envPlain testMsgD "enum_list_field: [FOO, 2, BAR]" =
      .ok [("enumListField", .vArr [.vInt 1, .vInt 2, .vInt 2])] ∧
    parseResult envPlain testMsgD "enum_list_field: NEG\nenum_list_field: [BAR, FOO]" =
      .ok [("enumListField", .vArr [.vInt (-1), .vInt 2, .vInt 1])] ∧
    errMsg (parseResult envPlain testMsgD "enum_list_field [FOO]") = some "Expected \":\"." := by
  exact ⟨by rfl, by rfl, by rfl⟩

/-- C8: inserting a parsed map entry stores it under the JS property key
of the parsed key, replacing any prior value for the same key (the
general `objSet` store semantics), so after entries k1↦1, k2↦2, k1↦9
the map holds k2↦2 and k1↦9. -/
theorem c8_map_insert_replaces :
    (∀ (es : PMessage) (k : String) (v : PValue), objGet (objSet es k v) k = some v) ∧
    (∀ (es : PMessage) (k k' : String) (v : PValue), k' ≠ k →
      objGet (objSet es k v) k' = objGet es k') ∧
    parseResult envPlain testMsgD
        ("string_int_map \x7b key: \"k1\" value: 1 \x7d\n" ++
         "string_int_map \x7b key: \"k2\" value: 2 \x7d\n" ++
         "string_int_map \x7b key: \"k1\" value: 9 \x7d") =
      .ok [("stringIntMap", .vMap [("k1", .vInt 9), ("k2", .vInt 2)])] ∧
    objGet [("k1", PValue.vInt 9), ("k2", PValue.vInt 2)] "k1" = some (.vInt 9) ∧
    objGet [("k1", PValue.vInt 9), ("k2", PValue.vInt 2)] "k2" = some (.vInt 2) := by
  refine ⟨?_, ?_, by rfl, by rfl, by rfl⟩
  · intro es k v
    induction es with
    | nil => simp [objSet, objGet]
    | cons e t ih =>
      obtain ⟨k1, v1⟩ := e
      by_cases hk : k1 = k
      · subst hk
        simp [objSet, objGet]
      · simp only [objSet, if_neg hk]
        simp only [objGet] at ih ⊢
        rw [List.find?_cons_of_neg _ (by simpa using hk)]
        exact ih
  · intro es k k' v hne
    have hne' : ¬(k = k') := fun h => hne h.symm
    induction es with
    | nil =>
      simp only [objSet, objGet]
      rw [List.find?_cons_of_neg _ (by simpa using hne')]
    | cons e t ih =>
      obtain ⟨k1, v1⟩ := e
      by_cases hk : k1 = k
      · subst hk
        have hset : objSet ((k1, v1) :: t) k1 v = (k1, v) :: t := by simp [objSet]
        rw [hset]
        simp only [objGet]
        rw [List.find?_cons_of_neg _ (by simpa using Ne.symm hne),
          List.find?_cons_of_neg _ (by simpa using Ne.symm hne)]
      · have hset : objSet ((k1, v1) :: t) k v = (k1, v1) :: objSet t k v := by
          simp [objSet, hk]
        rw [hset]
        simp only [objGet] at ih ⊢
        by_cases hk' : k1 = k'
        · subst hk'
          rw [List.find?_cons_of_pos _ (by simp), List.find?_cons_of_pos _ (by simp)]
        · rw [List.find?_cons_of_neg _ (by simpa using hk'),
            List.find?_cons_of_neg _ (by simpa using hk')]
          exact ih

/-- C8 witness: the replacement behaviour at concrete keys. -/
theorem c8_map_insert_replaces_witness :
    objGet (objSet [("k1", PValue.vInt 1), ("k2", PValue.vInt 2)] "k1" (.vInt 9)) "k1" =
      some (.vInt 9) ∧
    objGet (objSet [("k1", PValue.vInt 1), ("k2", PValue.vInt 2)] "k1" (.vInt 9)) "k2" =
      some (.vInt 2) := by
  constructor
  · exact c8_map_insert_replaces.1 [("k1", .vInt 1), ("k2", .vInt 2)] "k1" (.vInt 9)
  · exact c8_map_insert_replaces.2.1 [("k1", .vInt 1), ("k2", .vInt 2)] "k1" "k2" (.vInt 9)
      (by decide)

/-! ## Helper lemmas for the escape-decoding claim (C5) -/

theorem digitVal_lt8 {c : Char} (h : isOctDigit c = true) : digitVal c < 8 := by
  unfold isOctDigit at h
  simp only [Bool.and_eq_true, decide_eq_true_eq] at h
  unfold digitVal
  omega

theorem hexDigitVal_lt16 {c : Char} (h : isHexDigitJs c = true) : hexDigitVal c < 16 := by
  unfold isHexDigitJs at h
  simp only [Bool.or_eq_true, Bool.and_eq_true, decide_eq_true_eq] at h
  unfold hexDigitVal
  split_ifs <;> omega

/-- The fuel of `cUnescapeAux` is irrelevant as long as it covers the
source length (each step consumes at least one character). -/
theorem cUnescapeAux_congr : ∀ (f1 : Nat) (xs : List Char) (f2 : Nat),
    xs.length ≤ f1 → xs.length ≤ f2 → cUnescapeAux f1 xs = cUnescapeAux f2 xs := by
  intro f1
  induction f1 with
  | zero =>
    intro xs f2 h1 _
    have hx : xs = [] := List.length_eq_zero.mp (Nat.le_zero.mp h1)
    subst hx
    cases f2 <;> rfl
  | succ n ih =>
    intro xs f2 h1 h2
    cases xs with
    | nil => cases f2 <;> rfl
    | cons c rest =>
      obtain ⟨m, rfl⟩ : ∃ m, f2 = m + 1 := by
        cases f2 with
        | zero => simp at h2
        | succ m => exact ⟨m, rfl⟩
      simp only [List.length_cons] at h1 h2
      cases rest with
      | nil => rfl
      | cons e rest' =>
        simp only [List.length_cons] at h1 h2
        simp only [cUnescapeAux]
        by_cases hc : c = '\\'
        · rw [if_pos hc, if_pos hc]
          by_cases hx : e = 'x'
          · rw [if_pos hx, if_pos hx]
            rw [ih (rest'.drop (takeWhileN isHexDigitJs 2 rest').length) m
              (by simp [List.length_drop]; omega) (by simp [List.length_drop]; omega)]
          · rw [if_neg hx, if_neg hx]
            by_cases hu : e = 'u'
            · rw [if_pos hu, if_pos hu]
              rw [ih (rest'.drop 4) m (by simp [List.length_drop]; omega)
                (by simp [List.length_drop]; omega)]
            · rw [if_neg hu, if_neg hu]
              by_cases hU : e = 'U'
              · rw [if_pos hU, if_pos hU]
                cases hexPrefixVal (rest'.take 8) with
                | none => rfl
                | some v =>
                  dsimp only
                  by_cases hv : v ≤ 0x10FFFF
                  · rw [if_pos hv, if_pos hv]
                    rw [ih (rest'.drop 8) m (by simp [List.length_drop]; omega)
                      (by simp [List.length_drop]; omega)]
                  · rw [if_neg hv, if_neg hv]
              · rw [if_neg hU, if_neg hU]
                by_cases ho : isOctDigit e = true
                · rw [if_pos ho, if_pos ho]
                  rw [ih ((e :: rest').drop (takeWhileN isOctDigit 3 (e :: rest')).length) m
                    (by simp [List.length_drop]; omega) (by simp [List.length_drop]; omega)]
                · rw [if_neg ho, if_neg ho]
                  by_cases hesc : isEscCase e = true
                  · rw [if_pos hesc, if_pos hesc]
                    rw [ih rest' m (by omega) (by omega)]
                  · rw [if_neg hesc, if_neg hesc]
                    rw [ih rest' m (by omega) (by omega)]
        · rw [if_neg hc, if_neg hc]
          rw [ih (e :: rest') m (by simp; omega) (by simp; omega)]

/-- Evaluating `cUnescapeU` with any sufficient fuel. -/
theorem cUnescapeAux_eq_cUnescapeU {fuel : Nat} {xs : List Char} (h : xs.length ≤ fuel) :
    cUnescapeAux fuel xs = cUnescapeU xs :=
  cUnescapeAux_congr fuel xs (xs.length + 1) h (by omega)

theorem isOctDigit_ne_xuU {d : Char} (h : isOctDigit d = true) :
    d ≠ 'x' ∧ d ≠ 'u' ∧ d ≠ 'U' := by
  refine ⟨?_, ?_, ?_⟩ <;> intro he <;> subst he <;> exact absurd h (by decide)

/-- One step of `cUnescapeU` on a simple single-character escape. -/
theorem cUnescapeU_simple (e : Char) (rest : List Char) (ha : isEscCase e = true)
    (hx : e ≠ 'x') (hu : e ≠ 'u') (hU : e ≠ 'U') (ho : isOctDigit e = false) :
    cUnescapeU ('\\' :: e :: rest) = (simpleEscVal e :: ·) <$> cUnescapeU rest := by
  simp only [cUnescapeU, List.length_cons]
  simp only [cUnescapeAux, if_true, if_false]
  rw [if_neg hx, if_neg hu, if_neg hU, ho, if_neg (by simp), if_pos ha,
    cUnescapeAux_congr (rest.length + 2) rest (rest.length + 1) (by omega) (by omega)]

/-- One step of `cUnescapeU` on a three-octal-digit escape: exactly three
digits are consumed (greedily), whatever follows. -/
theorem cUnescapeU_oct3 (d1 d2 d3 : Char) (rest : List Char)
    (h1 : isOctDigit d1 = true) (h2 : isOctDigit d2 = true) (h3 : isOctDigit d3 = true) :
    cUnescapeU ('\\' :: d1 :: d2 :: d3 :: rest) =
      ((64 * digitVal d1 + 8 * digitVal d2 + digitVal d3 : Nat) :: ·) <$> cUnescapeU rest := by
  obtain ⟨hx, hu, hU⟩ := isOctDigit_ne_xuU h1
  have hds : takeWhileN isOctDigit 3 (d1 :: d2 :: d3 :: rest) = [d1, d2, d3] := by
    simp [takeWhileN, h1, h2, h3]
  have hv : digitsVal 8 digitVal [d1, d2, d3] % 65536 =
      64 * digitVal d1 + 8 * digitVal d2 + digitVal d3 := by
    have v1 := digitVal_lt8 h1; have v2 := digitVal_lt8 h2; have v3 := digitVal_lt8 h3
    simp only [digitsVal, List.foldl]
    omega
  simp only [cUnescapeU, List.length_cons]
  simp only [cUnescapeAux, if_true, if_false]
  rw [if_neg hx, if_neg hu, if_neg hU, if_pos h1]
  simp only [hds]
  have hdr : List.drop (List.length [d1, d2, d3]) (d1 :: d2 :: d3 :: rest) = rest := rfl
  rw [hdr, hv,
    cUnescapeAux_congr (rest.length + 4) rest (rest.length + 1) (by omega) (by omega)]

/-- One step of `cUnescapeU` on a two-octal-digit escape (next character,
if any, not an octal digit). -/
theorem cUnescapeU_oct2 (d1 d2 : Char) (rest : List Char)
    (h1 : isOctDigit d1 = true) (h2 : isOctDigit d2 = true)
    (hr : ∀ c, rest.head? = some c → isOctDigit c = false) :
    cUnescapeU ('\\' :: d1 :: d2 :: rest) =
      ((8 * digitVal d1 + digitVal d2 : Nat) :: ·) <$> cUnescapeU rest := by
  obtain ⟨hx, hu, hU⟩ := isOctDigit_ne_xuU h1
  have hds : takeWhileN isOctDigit 3 (d1 :: d2 :: rest) = [d1, d2] := by
    cases rest with
    | nil => simp [takeWhileN, h1, h2]
    | cons c t => simp [takeWhileN, h1, h2, hr c rfl]
  have hv : digitsVal 8 digitVal [d1, d2] % 65536 = 8 * digitVal d1 + digitVal d2 := by
    have v1 := digitVal_lt8 h1; have v2 := digitVal_lt8 h2
    simp only [digitsVal, List.foldl]
    omega
  simp only [cUnescapeU, List.length_cons]
  simp only [cUnescapeAux, if_true, if_false]
  rw [if_neg hx, if_neg hu, if_neg hU, if_pos h1]
  simp only [hds]
  have hdr : List.drop (List.length [d1, d2]) (d1 :: d2 :: rest) = rest := rfl
  rw [hdr, hv,
    cUnescapeAux_congr (rest.length + 3) rest (rest.length + 1) (by omega) (by omega)]

/-- One step of `cUnescapeU` on a single-octal-digit escape (next
character, if any, not an octal digit). -/
theorem cUnescapeU_oct1 (d1 : Char) (rest : List Char) (h1 : isOctDigit d1 = true)
    (hr : ∀ c, rest.head? = some c → isOctDigit c = false) :
    cUnescapeU ('\\' :: d1 :: rest) = ((digitVal d1 : Nat) :: ·) <$> cUnescapeU rest := by
  obtain ⟨hx, hu, hU⟩ := isOctDigit_ne_xuU h1
  have hds : takeWhileN isOctDigit 3 (d1 :: rest) = [d1] := by
    cases rest with
    | nil => simp [takeWhileN, h1]
    | cons c t => simp [takeWhileN, h1, hr c rfl]
  have hv : digitsVal 8 digitVal [d1] % 65536 = digitVal d1 := by
    have v1 := digitVal_lt8 h1
    simp only [digitsVal, List.foldl]
    omega
  simp only [cUnescapeU, List.length_cons]
  simp only [cUnescapeAux, if_true, if_false]
  rw [if_neg hx, if_neg hu, if_neg hU, if_pos h1]
  simp only [hds]
  have hdr : List.drop (List.length [d1]) (d1 :: rest) = rest := rfl
  rw [hdr, hv,
    cUnescapeAux_congr (rest.length + 2) rest (rest.length + 1) (by omega) (by omega)]

/-- One step of `cUnescapeU` on a two-hex-digit `\xHH` escape: at most
two digits are consumed, whatever follows. -/
theorem cUnescapeU_hex2 (a b : Char) (rest : List Char)
    (h1 : isHexDigitJs a = true) (h2 : isHexDigitJs b = true) :
    cUnescapeU ('\\' :: 'x' :: a :: b :: rest) =
      ((16 * hexDigitVal a + hexDigitVal b : Nat) :: ·) <$> cUnescapeU rest := by
  have hds : takeWhileN isHexDigitJs 2 (a :: b :: rest) = [a, b] := by
    simp [takeWhileN, h1, h2]
  have hv : digitsVal 16 hexDigitVal [a, b] % 65536 =
      16 * hexDigitVal a + hexDigitVal b := by
    have v1 := hexDigitVal_lt16 h1; have v2 := hexDigitVal_lt16 h2
    simp only [digitsVal, List.foldl]
    omega
  simp only [cUnescapeU, List.length_cons]
  simp only [cUnescapeAux, if_true, if_false]
  simp only [hds, List.isEmpty_cons, Bool.false_eq_true, if_false]
  have hdr : List.drop (List.length [a, b]) (a :: b :: rest) = rest := rfl
  rw [hdr, hv,
    cUnescapeAux_congr (rest.length + 4) rest (rest.length + 1) (by omega) (by omega)]

/-- One step of `cUnescapeU` on a single-hex-digit `\xH` escape (next
character, if any, not a hex digit). -/
theorem cUnescapeU_hex1 (a : Char) (rest : List Char) (h1 : isHexDigitJs a = true)
    (hr : ∀ c, rest.head? = some c → isHexDigitJs c = false) :
    cUnescapeU ('\\' :: 'x' :: a :: rest) =
      ((hexDigitVal a : Nat) :: ·) <$> cUnescapeU rest := by
  have hds : takeWhileN isHexDigitJs 2 (a :: rest) = [a] := by
    cases rest with
    | nil => simp [takeWhileN, h1]
    | cons c t => simp [takeWhileN, h1, hr c rfl]
  have hv : digitsVal 16 hexDigitVal [a] % 65536 = hexDigitVal a := by
    have v1 := hexDigitVal_lt16 h1
    simp only [digitsVal, List.foldl]
    omega
  simp only [cUnescapeU, List.length_cons]
  simp only [cUnescapeAux, if_true, if_false]
  simp only [hds, List.isEmpty_cons, Bool.false_eq_true, if_false]
  have hdr : List.drop (List.length [a]) (a :: rest) = rest := rfl
  rw [hdr, hv,
    cUnescapeAux_congr (rest.length + 3) rest (rest.length + 1) (by omega) (by omega)]

/-- One step of `cUnescapeU` on a `\uHHHH` escape: exactly four hex
digits, a BMP code unit. -/
theorem cUnescapeU_u4 (a b c d : Char) (rest : List Char)
    (h1 : isHexDigitJs a = true) (h2 : isHexDigitJs b = true)
    (h3 : isHexDigitJs c = true) (h4 : isHexDigitJs d = true) :
    cUnescapeU ('\\' :: 'u' :: a :: b :: c :: d :: rest) =
      ((4096 * hexDigitVal a + 256 * hexDigitVal b + 16 * hexDigitVal c +
        hexDigitVal d : Nat) :: ·) <$> cUnescapeU rest := by
  have htk : List.take 4 (a :: b :: c :: d :: rest) = [a, b, c, d] := rfl
  have hpv : hexPrefixVal [a, b, c, d] = some (digitsVal 16 hexDigitVal [a, b, c, d]) := by
    simp [hexPrefixVal, List.takeWhile_cons, h1, h2, h3, h4]
  have hv : digitsVal 16 hexDigitVal [a, b, c, d] % 65536 =
      4096 * hexDigitVal a + 256 * hexDigitVal b + 16 * hexDigitVal c + hexDigitVal d := by
    have v1 := hexDigitVal_lt16 h1; have v2 := hexDigitVal_lt16 h2
    have v3 := hexDigitVal_lt16 h3; have v4 := hexDigitVal_lt16 h4
    simp only [digitsVal, List.foldl]
    omega
  simp only [cUnescapeU, List.length_cons]
  simp only [cUnescapeAux, if_true, if_false]
  rw [if_neg (by decide : ¬(('u' : Char) = 'x')), htk, hpv]
  simp only [Option.getD_some]
  have hdr : List.drop 4 (a :: b :: c :: d :: rest) = rest := rfl
  rw [hdr, hv,
    cUnescapeAux_congr (rest.length + 6) rest (rest.length + 1) (by omega) (by omega)]

/-- One step of `cUnescapeU` on a `\UHHHHHHHH` escape whose value is a
valid code point: exactly eight hex digits, emitted as UTF-16 units. -/
theorem cUnescapeU_U8 (a b c d e f g h : Char) (rest : List Char)
    (h1 : isHexDigitJs a = true) (h2 : isHexDigitJs b = true)
    (h3 : isHexDigitJs c = true) (h4 : isHexDigitJs d = true)
    (h5 : isHexDigitJs e = true) (h6 : isHexDigitJs f = true)
    (h7 : isHexDigitJs g = true) (h8 : isHexDigitJs h = true)
    (hle : digitsVal 16 hexDigitVal [a, b, c, d, e, f, g, h] ≤ 0x10FFFF) :
    cUnescapeU ('\\' :: 'U' :: a :: b :: c :: d :: e :: f :: g :: h :: rest) =
      (utf16Units (digitsVal 16 hexDigitVal [a, b, c, d, e, f, g, h]) ++ ·) <$>
        cUnescapeU rest := by
  have htk : List.take 8 (a :: b :: c :: d :: e :: f :: g :: h :: rest) =
      [a, b, c, d, e, f, g, h] := rfl
  have hpv : hexPrefixVal [a, b, c, d, e, f, g, h] =
      some (digitsVal 16 hexDigitVal [a, b, c, d, e, f, g, h]) := by
    simp [hexPrefixVal, List.takeWhile_cons, h1, h2, h3, h4, h5, h6, h7, h8]
  simp only [cUnescapeU, List.length_cons]
  simp only [cUnescapeAux, if_true, if_false]
  rw [if_neg (by decide : ¬(('U' : Char) = 'x')), if_neg (by decide : ¬(('U' : Char) = 'u')),
    htk, hpv]
  dsimp only
  rw [if_pos hle]
  have hdr : List.drop 8 (a :: b :: c :: d :: e :: f :: g :: h :: rest) = rest := rfl
  rw [hdr,
    cUnescapeAux_congr (rest.length + 10) rest (rest.length + 1) (by omega) (by omega)]

/-- One step of `cUnescapeU` on an unrecognized escape: the `default`
case appends the character without advancing, so it is emitted twice. -/
theorem cUnescapeU_catchall (e : Char) (rest : List Char) (ha : isEscCase e = false) :
    cUnescapeU ('\\' :: e :: rest) = (e.toNat :: e.toNat :: ·) <$> cUnescapeU rest := by
  have hx : e ≠ 'x' := by intro he; subst he; exact absurd ha (by decide)
  have hu : e ≠ 'u' := by intro he; subst he; exact absurd ha (by decide)
  have hU : e ≠ 'U' := by intro he; subst he; exact absurd ha (by decide)
  have ho : isOctDigit e = false := by
    cases hoc : isOctDigit e with
    | false => rfl
    | true =>
      have hesc : isEscCase e = true := by
        unfold isEscCase
        rw [hoc]
        simp
      rw [hesc] at ha
      exact absurd ha (by decide)
  simp only [cUnescapeU, List.length_cons]
  simp only [cUnescapeAux, if_true, if_false]
  rw [if_neg hx, if_neg hu, if_neg hU, ho, if_neg (by simp), ha, if_neg (by simp),
    cUnescapeAux_congr (rest.length + 2) rest (rest.length + 1) (by omega) (by omega)]

/-- C5: string unescaping decodes the tabulated escapes to their listed
values — the simple one-character escapes map to the tabulated code
units, octal escapes consume at most three octal digits greedily, hex
escapes at most two hex digits, `\uHHHH` takes four hex digits and
`\UHHHHHHHH` eight, and the spec's concrete examples (`\1234`, `\x213`,
`\xFHello`, `\0`, `\08`) decode as claimed — EXCEPT for the table's
catch-all row: the claim says an unrecognized escape `\c` decodes to the
literal character `c`, but the code's `default` case appends the
character without advancing the cursor, so the character is re-read and
emitted twice; `"\q"` decodes to `qq`, not `q`. -/
theorem c5_escape_table_catchall_divergence :
    (∀ (e : Char) (rest : List Char), isEscCase e = true → e ≠ 'x' → e ≠ 'u' →
        e ≠ 'U' → isOctDigit e = false →
        cUnescapeU ('\\' :: e :: rest) = (simpleEscVal e :: ·) <$> cUnescapeU rest) ∧
    (simpleEscVal 'a' = 0x07 ∧ simpleEscVal 'b' = 0x08 ∧ simpleEscVal 'f' = 0x0C ∧
      simpleEscVal 'n' = 0x0A ∧ simpleEscVal 'r' = 0x0D ∧ simpleEscVal 't' = 0x09 ∧
      simpleEscVal 'v' = 0x0B ∧ simpleEscVal '\\' = 0x5C ∧
      simpleEscVal (Char.ofNat 39) = 0x27 ∧ simpleEscVal '"' = 0x22 ∧
      simpleEscVal '?' = 0x3F) ∧
    (∀ (d1 d2 d3 : Char) (rest : List Char), isOctDigit d1 = true →
        isOctDigit d2 = true → isOctDigit d3 = true →
        cUnescapeU ('\\' :: d1 :: d2 :: d3 :: rest) =
          ((64 * digitVal d1 + 8 * digitVal d2 + digitVal d3 : Nat) :: ·) <$>
            cUnescapeU rest) ∧
    (∀ (d1 d2 : Char) (rest : List Char), isOctDigit d1 = true → isOctDigit d2 = true →
        (∀ c, rest.head? = some c → isOctDigit c = false) →
        cUnescapeU ('\\' :: d1 :: d2 :: rest) =
          ((8 * digitVal d1 + digitVal d2 : Nat) :: ·) <$> cUnescapeU rest) ∧
    (∀ (d1 : Char) (rest : List Char), isOctDigit d1 = true →
        (∀ c, rest.head? = some c → isOctDigit c = false) →
        cUnescapeU ('\\' :: d1 :: rest) = ((digitVal d1 : Nat) :: ·) <$> cUnescapeU rest) ∧
    (∀ (a b : Char) (rest : List Char), isHexDigitJs a = true → isHexDigitJs b = true →
        cUnescapeU ('\\' :: 'x' :: a :: b :: rest) =
          ((16 * hexDigitVal a + hexDigitVal b : Nat) :: ·) <$> cUnescapeU rest) ∧
    (∀ (a : Char) (rest : List Char), isHexDigitJs a = true →
        (∀ c, rest.head? = some c → isHexDigitJs c = false) →
        cUnescapeU ('\\' :: 'x' :: a :: rest) =
          ((hexDigitVal a : Nat) :: ·) <$> cUnescapeU rest) ∧
    (∀ (a b c d : Char) (rest : List Char), isHexDigitJs a = true →
        isHexDigitJs b = true → isHexDigitJs c = true → isHexDigitJs d = true →
        cUnescapeU ('\\' :: 'u' :: a :: b :: c :: d :: rest) =
          ((4096 * hexDigitVal a + 256 * hexDigitVal b + 16 * hexDigitVal c +
            hexDigitVal d : Nat) :: ·) <$> cUnescapeU rest) ∧
    (∀ (a b c d e f g h : Char) (rest : List Char), isHexDigitJs a = true →
        isHexDigitJs b = true → isHexDigitJs c = true → isHexDigitJs d = true →
        isHexDigitJs e = true → isHexDigitJs f = true → isHexDigitJs g = true →
        isHexDigitJs h = true →
        digitsVal 16 hexDigitVal [a, b, c, d, e, f, g, h] ≤ 0x10FFFF →
        cUnescapeU ('\\' :: 'U' :: a :: b :: c :: d :: e :: f :: g :: h :: rest) =
          (utf16Units (digitsVal 16 hexDigitVal [a, b, c, d, e, f, g, h]) ++ ·) <$>
            cUnescapeU rest) ∧
    (cUnescapeU "\\1234".data = .ok [0x53, 0x34] ∧
      cUnescapeU "\\x213".data = .ok [0x21, 0x33] ∧
      cUnescapeU "\\xFHello".data = .ok (0x0F :: strUnits "Hello") ∧
      cUnescapeU "\\0".data = .ok [0x00] ∧
      cUnescapeU "\\08".data = .ok [0x00, 0x38]) ∧
    (∀ (e : Char) (rest : List Char), isEscCase e = false →
        cUnescapeU ('\\' :: e :: rest) = (e.toNat :: e.toNat :: ·) <$> cUnescapeU rest) ∧
    (cUnescapeU "\\q".data = .ok [0x71, 0x71] ∧
      (Except.ok [0x71, 0x71] : Except String (List Nat)) ≠ .ok [0x71]) := by
  refine ⟨cUnescapeU_simple, by decide, cUnescapeU_oct3, cUnescapeU_oct2, cUnescapeU_oct1,
    cUnescapeU_hex2, cUnescapeU_hex1, cUnescapeU_u4, cUnescapeU_U8, by decide,
    cUnescapeU_catchall, by decide⟩

/-- C5 witness: each of the general escape rules instantiated at
concrete characters with the trailing source empty. -/
theorem c5_escape_table_catchall_divergence_witness :
    cUnescapeU ['\\', 'n'] = (simpleEscVal 'n' :: ·) <$> cUnescapeU [] ∧
    cUnescapeU ['\\', '1', '2', '3'] =
      ((64 * digitVal '1' + 8 * digitVal '2' + digitVal '3' : Nat) :: ·) <$>
        cUnescapeU [] ∧
    cUnescapeU ['\\', '0', '7'] =
      ((8 * digitVal '0' + digitVal '7' : Nat) :: ·) <$> cUnescapeU [] ∧
    cUnescapeU ['\\', '5'] = ((digitVal '5' : Nat) :: ·) <$> cUnescapeU [] ∧
    cUnescapeU ['\\', 'x', '2', 'A'] =
      ((16 * hexDigitVal '2' + hexDigitVal 'A' : Nat) :: ·) <$> cUnescapeU [] ∧
    cUnescapeU ['\\', 'x', 'F'] = ((hexDigitVal 'F' : Nat) :: ·) <$> cUnescapeU [] ∧
    cUnescapeU ['\\', 'u', '0', '0', '4', '1'] =
      ((4096 * hexDigitVal '0' + 256 * hexDigitVal '0' + 16 * hexDigitVal '4' +
        hexDigitVal '1' : Nat) :: ·) <$> cUnescapeU [] ∧
    cUnescapeU ['\\', 'U', '0', '0', '0', '1', 'F', '6', '0', '0'] =
      (utf16Units (digitsVal 16 hexDigitVal ['0', '0', '0', '1', 'F', '6', '0', '0']) ++ ·) <$>
        cUnescapeU [] ∧
    cUnescapeU ['\\', 'q'] = ('q'.toNat :: 'q'.toNat :: ·) <$> cUnescapeU [] := by
  have h := c5_escape_table_catchall_divergence
  exact ⟨h.1 'n' [] (by decide) (by decide) (by decide) (by decide) (by decide),
    h.2.2.1 '1' '2' '3' [] (by decide) (by decide) (by decide),
    h.2.2.2.1 '0' '7' [] (by decide) (by decide) (fun c hc => Option.noConfusion hc),
    h.2.2.2.2.1 '5' [] (by decide) (fun c hc => Option.noConfusion hc),
    h.2.2.2.2.2.1 '2' 'A' [] (by decide) (by decide),
    h.2.2.2.2.2.2.1 'F' [] (by decide) (fun c hc => Option.noConfusion hc),
    h.2.2.2.2.2.2.2.1 '0' '0' '4' '1' [] (by decide) (by decide) (by decide) (by decide),
    h.2.2.2.2.2.2.2.2.1 '0' '0' '0' '1' 'F' '6' '0' '0' [] (by decide) (by decide)
      (by decide) (by decide) (by decide) (by decide) (by decide) (by decide) (by decide),
    h.2.2.2.2.2.2.2.2.2.2.1 'q' [] (by decide)⟩

/-! ## Helper lemma for adjacent-string concatenation (C4) -/

/-- The accumulator of the shared concatenation loop only ever gets
appended to: running the loop with accumulator `acc` produces `acc ++ r`
where `r` is what the loop produces from an empty accumulator (same
final tokenizer state, and errors pass through unchanged). -/
theorem consumeStringAux_append : ∀ (fuel : Nat) (acc : List Nat) (t : Tok),
    (consumeStringAux fuel acc t).1 = (consumeStringAux fuel [] t).1 ∧
    (consumeStringAux fuel acc t).2 = (acc ++ ·) <$> (consumeStringAux fuel [] t).2 := by
  intro fuel
  induction fuel with
  | zero =>
    intro acc t
    refine ⟨rfl, ?_⟩
    show Except.ok acc = Except.ok (acc ++ [])
    rw [List.append_nil]
  | succ n ih =>
    intro acc t
    rcases htd : t.token.data with _ | ⟨c, cs⟩
    · have hstep : ∀ a, consumeStringAux (n + 1) a t = (t, .ok a) := by
        intro a
        simp only [consumeStringAux]
        rw [htd]
      rw [hstep acc, hstep []]
      refine ⟨rfl, ?_⟩
      show Except.ok acc = Except.ok (acc ++ [])
      rw [List.append_nil]
    · by_cases hq : isQuoteChar c = true
      · have hstep : ∀ a, consumeStringAux (n + 1) a t =
            pmBind consumeOneByteString (fun r => consumeStringAux n (a ++ r)) t := by
          intro a
          simp only [consumeStringAux]
          rw [htd]
          dsimp only
          rw [if_pos hq]
          rfl
        rw [hstep acc, hstep []]
        simp only [pmBind]
        rcases hob : consumeOneByteString t with ⟨t1, res⟩
        cases res with
        | error e => exact ⟨rfl, rfl⟩
        | ok r =>
          dsimp only
          obtain ⟨ihA1, ihA2⟩ := ih (acc ++ r) t1
          obtain ⟨ihB1, ihB2⟩ := ih r t1
          refine ⟨?_, ?_⟩
          · rw [ihA1, List.nil_append, ihB1]
          · rw [ihA2, List.nil_append, ihB2]
            rcases hX : (consumeStringAux n [] t1).2 with e | v
            · rfl
            · show Except.ok (acc ++ r ++ v) = Except.ok (acc ++ (r ++ v))
              rw [List.append_assoc]
      · have hstep : ∀ a, consumeStringAux (n + 1) a t = (t, .ok a) := by
          intro a
          simp only [consumeStringAux]
          rw [htd]
          dsimp only
          rw [if_neg hq]
        rw [hstep acc, hstep []]
        refine ⟨rfl, ?_⟩
        show Except.ok acc = Except.ok (acc ++ [])
        rw [List.append_nil]

/-- C4: a string or bytes value written as several adjacent quoted
literals (either quote style, possibly mixed) decodes to the
concatenation of the individually decoded payloads: the shared
concatenation loop only appends to its accumulator, `"a" "b"` consumed
as a string equals `"ab"`, mixed and triple literal runs concatenate,
and for bytes the equality holds at the octet level, both at the
consume-operation level and end-to-end through string/bytes fields. -/
theorem c4_adjacent_string_concatenation :
    (∀ (fuel : Nat) (acc : List Nat) (t : Tok),
        (consumeStringAux fuel acc t).1 = (consumeStringAux fuel [] t).1 ∧
        (consumeStringAux fuel acc t).2 = (acc ++ ·) <$> (consumeStringAux fuel [] t).2) ∧
    ((consumeString (mkTokenizer (jsSplitNL "\"a\" \"b\""))).2 = .ok (strUnits "ab") ∧
      (consumeString (mkTokenizer (jsSplitNL "\"ab\""))).2 = .ok (strUnits "ab")) ∧
    (consumeString (mkTokenizer (jsSplitNL
        (⟨[Char.ofNat 39, 'a', Char.ofNat 39, ' ', '"', 'b', '"']⟩ : String)))).2 =
      .ok (strUnits "ab") ∧
    (consumeString (mkTokenizer (jsSplitNL "\"a\" \"b\" \"c\""))).2 = .ok (strUnits "abc") ∧
    ((consumeByteString (mkTokenizer (jsSplitNL "\"\\377\" \"\\376\""))).2 =
        .ok [0xFF, 0xFE] ∧
      (consumeByteString (mkTokenizer (jsSplitNL "\"\\377\\376\""))).2 =
        .ok [0xFF, 0xFE]) ∧
    (parseResult envPlain testMsgD "string_field: \"a\" \"b\"" =
        .ok [("stringField", .vStr (strUnits "ab"))] ∧
      parseResult envPlain testMsgD "string_field: \"ab\"" =
        .ok [("stringField", .vStr (strUnits "ab"))] ∧
      parseResult envPlain testMsgD "bytes_field: \"\\377\" \"\\376\"" =
        .ok [("bytesField", .vBytes [0xFF, 0xFE])] ∧
      parseResult envPlain testMsgD "bytes_field: \"\\377\\376\"" =
        .ok [("bytesField", .vBytes [0xFF, 0xFE])]) := by
  exact ⟨consumeStringAux_append, ⟨by rfl, by rfl⟩, by rfl, by rfl, ⟨by rfl, by rfl⟩,
    by rfl, by rfl, by rfl, by rfl⟩

/-! ## Helper lemmas for position monotonicity (C9) -/

theorem lexLE_refl (a : Int × Nat) : lexLE a a := Or.inr ⟨rfl, le_refl _⟩

theorem lexLE_trans {a b c : Int × Nat} (h1 : lexLE a b) (h2 : lexLE b c) : lexLE a c := by
  rcases h1 with h1 | ⟨h1, h1'⟩ <;> rcases h2 with h2 | ⟨h2, h2'⟩ <;>
    [exact Or.inl (h1.trans h2); exact Or.inl (h2 ▸ h1); exact Or.inl (h1 ▸ h2);
     exact Or.inr ⟨h1.trans h2, h1'.trans h2'⟩]

theorem popLineAux_mono : ∀ (ls : List String) (line : Int) (col : Nat),
    lexLE (line, col) ((popLineAux ls line col).2.2.1, (popLineAux ls line col).2.2.2.1) := by
  intro ls
  induction ls with
  | nil => intro line col; exact lexLE_refl _
  | cons l t ih =>
    intro line col
    by_cases hl : l.data.length = 0
    · rw [popLineAux, if_pos hl]
      exact lexLE_trans (b := (line + 1, 0)) (Or.inl (by omega)) (ih (line + 1) 0)
    · rw [popLineAux, if_neg hl]
      refine Or.inl ?_
      show line < line + 1
      omega

theorem popLine_mono (t : Tok) : lexLE (t.line, t.column) ((popLine t).line, (popLine t).column) := by
  unfold popLine
  split
  · exact popLineAux_mono t.lines t.line t.column
  · exact lexLE_refl _

theorem popLine_prev (t : Tok) : (popLine t).previous_line = t.previous_line ∧
    (popLine t).previous_column = t.previous_column := by
  unfold popLine
  split <;> exact ⟨rfl, rfl⟩

theorem skipWsAux_mono : ∀ (fuel : Nat) (t : Tok),
    lexLE (t.line, t.column) ((skipWsAux fuel t).line, (skipWsAux fuel t).column) := by
  intro fuel
  induction fuel with
  | zero => intro t; exact lexLE_refl _
  | succ n ih =>
    intro t
    rw [skipWsAux]
    refine lexLE_trans (popLine_mono t) ?_
    split
    · exact lexLE_refl _
    · split
      · exact lexLE_refl _
      · refine lexLE_trans ?_ (ih _)
        exact Or.inr ⟨rfl, Nat.le_add_right _ _⟩

theorem skipWsAux_prev : ∀ (fuel : Nat) (t : Tok),
    (skipWsAux fuel t).previous_line = t.previous_line ∧
    (skipWsAux fuel t).previous_column = t.previous_column := by
  intro fuel
  induction fuel with
  | zero => intro t; exact ⟨rfl, rfl⟩
  | succ n ih =>
    intro t
    rw [skipWsAux]
    have hp := popLine_prev t
    split
    · exact hp
    · split
      · exact hp
      · refine ⟨?_, ?_⟩
        · rw [(ih _).1]
          exact hp.1
        · rw [(ih _).2]
          exact hp.2

theorem scanToken_fields (t : Tok) :
    (scanToken t).line = t.line ∧ (scanToken t).column = t.column ∧
    (scanToken t).previous_line = t.previous_line ∧
    (scanToken t).previous_column = t.previous_column := by
  unfold scanToken
  split
  · exact ⟨rfl, rfl, rfl, rfl⟩
  · split
    · exact ⟨rfl, rfl, rfl, rfl⟩
    · exact ⟨rfl, rfl, rfl, rfl⟩

/-- C9: token start positions are monotone — after every `nextToken`
call the recorded previous-token position is exactly the old token's
start, the new token's start is lexicographically at least the old one,
and hence along any run of `nextToken` calls the observed (line,
column) positions never decrease. -/
theorem c9_position_monotonicity :
    (∀ t : Tok, (nextToken t).previous_line = t.line ∧
      (nextToken t).previous_column = t.column) ∧
    (∀ t : Tok, lexLE (t.line, t.column) ((nextToken t).line, (nextToken t).column)) ∧
    (∀ (t : Tok) (n : Nat),
      lexLE ((Nat.iterate nextToken n t).line, (Nat.iterate nextToken n t).column)
        ((Nat.iterate nextToken (n + 1) t).line, (Nat.iterate nextToken (n + 1) t).column)) := by
  have hprev : ∀ t : Tok, (nextToken t).previous_line = t.line ∧
      (nextToken t).previous_column = t.column := by
    intro t
    show (scanToken _).previous_line = t.line ∧ (scanToken _).previous_column = t.column
    rw [(scanToken_fields _).2.2.1, (scanToken_fields _).2.2.2,
      (skipWsAux_prev _ _).1, (skipWsAux_prev _ _).2]
    exact ⟨rfl, rfl⟩
  have hmono : ∀ t : Tok, lexLE (t.line, t.column) ((nextToken t).line, (nextToken t).column) := by
    intro t
    show lexLE (t.line, t.column) ((scanToken _).line, (scanToken _).column)
    rw [(scanToken_fields _).1, (scanToken_fields _).2.1]
    refine lexLE_trans (b := (t.line, t.column + t.token.data.length))
      (Or.inr ⟨rfl, Nat.le_add_right _ _⟩) ?_
    exact skipWsAux_mono _ _
  refine ⟨hprev, hmono, ?_⟩
  intro t n
  rw [Function.iterate_succ_apply']
  exact hmono (Nat.iterate nextToken n t)

end Pbtxt
